import Mathlib

/-!
Verification development for the fuzzy-deduplication engine of
`src/tools/dj_set_processor/generate_summaries.py`.

The Python source is shallowly embedded: rows and headers are lists of
strings, groups are structures, stateful loops become folds, and the one
exception path (an `IndexError` raised while aligning a ragged row) is
modelled with `Except`.  Python floats are modelled as exact rationals,
and `str.lower` is modelled on its ASCII fragment (the spec's stated
non-goal: "no internationalization beyond byte-wise lowercasing").
-/

set_option maxRecDepth 100000

/-- Models Python `str.lower()` on its ASCII fragment, character by character. -/
def pyLower (s : String) : String :=
  ⟨s.data.map Char.toLower⟩

/-- Characters treated as whitespace by Python's `str.strip()` (ASCII fragment). -/
def pyIsSpace (c : Char) : Bool :=
  c = ' ' || c = '\t' || c = '\n' || c = '\r' || c = '\x0b' || c = '\x0c'

/-- Strip leading and trailing whitespace from a character list, as `str.strip()`. -/
def pyStripList (l : List Char) : List Char :=
  (((l.dropWhile pyIsSpace).reverse).dropWhile pyIsSpace).reverse

/-- Models Python `s.strip()`. -/
def pyStrip (s : String) : String :=
  ⟨pyStripList s.data⟩

/-- Does the character list start with the given pattern? -/
def startsWithList : List Char → List Char → Bool
  | _, [] => true
  | [], _ :: _ => false
  | a :: as, b :: bs => a = b && startsWithList as bs

/-- Contiguous-substring test on character lists: models Python's `pat in hay`. -/
def containsList (pat : List Char) : List Char → Bool
  | [] => startsWithList [] pat
  | c :: t => startsWithList (c :: t) pat || containsList pat t

/-- Models Python `pat in hay` for strings (contiguous substring). -/
def pyContains (hay pat : String) : Bool :=
  containsList pat.data hay.data

/-- Value of an ASCII digit character. -/
def digitVal (c : Char) : Option Nat :=
  if c.isDigit then some (c.toNat - 48) else none

/-- Parse the remaining digits of a Python integer literal, allowing a single
underscore between digits (as `int()` does). -/
def parseDigitsCore : List Char → Nat → Option Nat
  | [], acc => some acc
  | '_' :: c :: t, acc =>
    match digitVal c with
    | some d => parseDigitsCore t (acc * 10 + d)
    | none => none
  | ['_'], _ => none
  | c :: t, acc =>
    match digitVal c with
    | some d => parseDigitsCore t (acc * 10 + d)
    | none => none

/-- Parse a nonempty digit sequence (first character must be a digit). -/
def parseDigitsStart : List Char → Option Nat
  | [] => none
  | c :: t =>
    match digitVal c with
    | some d => parseDigitsCore t d
    | none => none

/-- Models Python `int(s)` on its ASCII fragment: optional surrounding
whitespace, optional sign, digits with single underscores between digits;
`none` models `ValueError`. -/
def pyIntOpt (s : String) : Option Int :=
  match pyStripList s.data with
  | '+' :: rest => (parseDigitsStart rest).map (fun n => (n : Int))
  | '-' :: rest => (parseDigitsStart rest).map (fun n => -(n : Int))
  | rest => (parseDigitsStart rest).map (fun n => (n : Int))

/-- Models `int(x) if x else 0` under `try/except ValueError: 0`
(generate_summaries.py lines 850-857). -/
def cellInt (s : String) : Int :=
  if s = "" then 0 else (pyIntOpt s).getD 0

/-- Models `re.match(r"^\d{4}$", h)`: four digits, optionally followed by a
single final newline (Python's `$` also matches just before a trailing
newline). -/
def isYear4 (s : String) : Bool :=
  match s.data with
  | [a, b, c, d] => a.isDigit && b.isDigit && c.isDigit && d.isDigit
  | [a, b, c, d, e] => a.isDigit && b.isDigit && c.isDigit && d.isDigit && e = '\n'
  | _ => false

/-!
Model of `difflib.SequenceMatcher(None, a, b)` as used by
`string_similarity` (generate_summaries.py lines 637-641).

With `isjunk = None` the junk set is empty; the `autojunk` heuristic marks
an element of `b` popular when `len(b) >= 200` and it occurs more than
`len(b) // 100 + 1` times, and removes it from the index `b2j`.
`find_longest_match` returns, of all maximal matching blocks that use only
non-popular elements of `b`, the one starting earliest in `a` and then
earliest in `b`, afterwards extended over equal adjacent elements (the
documented behaviour of the CPython algorithm); `ratio()` is twice the
total size of the matching blocks divided by the total length, and `1.0`
for two empty sequences.
-/

/-- Popular elements of `b` excluded from matching by `autojunk`. -/
def smPopular (b : List Char) (c : Char) : Bool :=
  decide (200 ≤ b.length) && decide (b.length / 100 + 1 < b.count c)

/-- Length of the matching run starting at positions `i`, `j`, staying below
`ahi`/`bhi`, through equal characters whose `b` side is not popular. -/
def runLenAux (a b : List Char) (pop : Char → Bool) (ahi bhi : Nat) :
    Nat → Nat → Nat → Nat
  | 0, _, _ => 0
  | fuel + 1, i, j =>
    if i < ahi && j < bhi then
      match a[i]?, b[j]? with
      | some x, some y =>
        if x = y && !pop y then 1 + runLenAux a b pop ahi bhi fuel (i + 1) (j + 1)
        else 0
      | _, _ => 0
    else 0

/-- Run length from `(i, j)` within the window `[alo, ahi) × [blo, bhi)`. -/
def runLen (a b : List Char) (pop : Char → Bool) (ahi bhi i j : Nat) : Nat :=
  runLenAux a b pop ahi bhi (ahi - i) i j

/-- Scan all window start positions in lexicographic order, keeping the first
position attaining the maximal run length (strict improvement), starting
from `(alo, blo, 0)` as CPython does. -/
def bestScan (a b : List Char) (pop : Char → Bool) (alo ahi blo bhi : Nat) :
    Nat × Nat × Nat :=
  ((List.range' alo (ahi - alo)).flatMap fun i =>
      (List.range' blo (bhi - blo)).map fun j => (i, j)).foldl
    (fun best ij =>
      let k := runLen a b pop ahi bhi ij.1 ij.2
      if best.2.2 < k then (ij.1, ij.2, k) else best)
    (alo, blo, 0)

/-- Extend the found block leftwards over equal characters (the junk set is
empty, so the `not isbjunk` guard of CPython is vacuous). -/
def extendLeft (a b : List Char) (alo blo : Nat) :
    Nat → Nat → Nat → Nat → Nat × Nat × Nat
  | 0, i, j, k => (i, j, k)
  | fuel + 1, i, j, k =>
    if alo < i && blo < j then
      match a[i - 1]?, b[j - 1]? with
      | some x, some y =>
        if x = y then extendLeft a b alo blo fuel (i - 1) (j - 1) (k + 1)
        else (i, j, k)
      | _, _ => (i, j, k)
    else (i, j, k)

/-- Extend the found block rightwards over equal characters. -/
def extendRight (a b : List Char) (ahi bhi : Nat) :
    Nat → Nat → Nat → Nat → Nat × Nat × Nat
  | 0, i, j, k => (i, j, k)
  | fuel + 1, i, j, k =>
    if i + k < ahi && j + k < bhi then
      match a[i + k]?, b[j + k]? with
      | some x, some y =>
        if x = y then extendRight a b ahi bhi fuel i j (k + 1)
        else (i, j, k)
      | _, _ => (i, j, k)
    else (i, j, k)

/-- Models `SequenceMatcher.find_longest_match` on the window
`[alo, ahi) × [blo, bhi)` (junk set empty, `autojunk` popularity active). -/
def findLongestMatch (a b : List Char) (alo ahi blo bhi : Nat) : Nat × Nat × Nat :=
  let best := bestScan a b (smPopular b) alo ahi blo bhi
  let left := extendLeft a b alo blo (best.1 + best.2.1) best.1 best.2.1 best.2.2
  extendRight a b ahi bhi (ahi + bhi) left.1 left.2.1 left.2.2

/-- Matching blocks of a window, in order: recurse left of the longest match,
emit it, recurse right (the functional rendering of CPython's queue followed
by `sort()`). -/
def matchBlocksAux (a b : List Char) :
    Nat → Nat → Nat → Nat → Nat → List (Nat × Nat × Nat)
  | 0, _, _, _, _ => []
  | fuel + 1, alo, ahi, blo, bhi =>
    let m := findLongestMatch a b alo ahi blo bhi
    if m.2.2 = 0 then []
    else
      matchBlocksAux a b fuel alo m.1 blo m.2.1 ++ [m] ++
        matchBlocksAux a b fuel (m.1 + m.2.2) ahi (m.2.1 + m.2.2) bhi

/-- Merge adjacent blocks, as the `non_adjacent` pass of
`get_matching_blocks` (block sizes are summed when blocks touch). -/
def mergeAdjacent : List (Nat × Nat × Nat) → Nat × Nat × Nat → List (Nat × Nat × Nat)
  | [], acc => if acc.2.2 ≠ 0 then [acc] else []
  | x :: t, acc =>
    if acc.1 + acc.2.2 = x.1 && acc.2.1 + acc.2.2 = x.2.1 then
      mergeAdjacent t (acc.1, acc.2.1, acc.2.2 + x.2.2)
    else
      (if acc.2.2 ≠ 0 then [acc] else []) ++ mergeAdjacent t x

/-- Models `SequenceMatcher.get_matching_blocks()`, including the final
`(len(a), len(b), 0)` sentinel. -/
def getMatchingBlocks (a b : List Char) : List (Nat × Nat × Nat) :=
  mergeAdjacent (matchBlocksAux a b (a.length + b.length + 1) 0 a.length 0 b.length)
      (0, 0, 0) ++
    [(a.length, b.length, 0)]

/-- Direct recursive total of matched characters over the same window
decomposition, without building the block list. -/
def matchesTotalAux (a b : List Char) : Nat → Nat → Nat → Nat → Nat → Nat
  | 0, _, _, _, _ => 0
  | fuel + 1, alo, ahi, blo, bhi =>
    let m := findLongestMatch a b alo ahi blo bhi
    if m.2.2 = 0 then 0
    else
      matchesTotalAux a b fuel alo m.1 blo m.2.1 + m.2.2 +
        matchesTotalAux a b fuel (m.1 + m.2.2) ahi (m.2.1 + m.2.2) bhi

/-- Total number of matched characters between `a` and `b`. -/
def matchesTotal (a b : List Char) : Nat :=
  matchesTotalAux a b (a.length + b.length + 1) 0 a.length 0 b.length

/-- Embeds `string_similarity` (generate_summaries.py lines 637-641):
`SequenceMatcher(None, a, b).ratio()`, i.e. twice the summed size of the
matching blocks divided by the total length, `1.0` when both are empty. -/
def string_similarity (a b : String) : ℚ :=
  let m : Nat := ((getMatchingBlocks a.data b.data).map (fun t => t.2.2)).sum
  if a.data.length + b.data.length = 0 then 1
  else 2 * (m : ℚ) / ((a.data.length + b.data.length : Nat) : ℚ)

/-- Embeds `clean_title` (generate_summaries.py lines 644-648):
`title.lower().strip()`. -/
def clean_title (title : String) : String :=
  pyStrip (pyLower title)

/-- Embeds `get_shared_filled_fields` (generate_summaries.py lines 613-620):
the number of indices where both rows are non-empty. -/
def get_shared_filled_fields (data1 data2 : List String) (indices : List Nat) : Nat :=
  indices.foldl
    (fun count i =>
      if data1.getD i "" != "" && data2.getD i "" != "" then count + 1 else count)
    0

/-- One loop iteration of `get_dedup_match_score` (lines 626-631): indices
with either side empty leave both accumulators untouched. -/
def scoreStep (data1 data2 : List String) (acc : ℚ × Nat) (i : Nat) : ℚ × Nat :=
  let v1 := data1.getD i ""
  let v2 := data2.getD i ""
  if v1 != "" && v2 != "" then (acc.1 + string_similarity v1 v2, acc.2 + 1)
  else acc

/-- Embeds `get_dedup_match_score` (generate_summaries.py lines 623-634):
average similarity over the indices where both rows are non-empty, `0` when
there is no such index. -/
def get_dedup_match_score (data1 data2 : List String) (indices : List Nat) : ℚ :=
  let res := indices.foldl (scoreStep data1 data2) (0, 0)
  if res.2 = 0 then 0 else res.1 / (res.2 : ℚ)

deriving instance DecidableEq for Except

/-- One input sheet: its own header row and its data rows. -/
structure Sheet where
  header : List String
  rows : List (List String)
deriving DecidableEq

/-- One deduplication group: representative aligned row, occurrence count, and
the soft-match marker (`""` or `"soft"`), mirroring the dicts
`{"data": ..., "count": ..., "match": ...}` of the source. -/
structure DedupGroup where
  data : List String
  count : Nat
  matchKind : String
deriving DecidableEq

instance : Inhabited DedupGroup := ⟨⟨[], 0, ""⟩⟩

/-- Result of either deduplication variant: canonical headers and groups. -/
structure DedupResult where
  headers : List String
  rowsWithMeta : List DedupGroup
deriving DecidableEq

/-- The fields used as deduplication keys (Length excluded), line 523. -/
def dedupFields : List String :=
  ["Title", "Remix", "Artist", "Comment", "Genre", "Year", "BPM"]

/-- The canonical display order of fields, line 524. -/
def desiredOrder : List String :=
  ["Title", "Remix", "Artist", "Comment", "Genre", "Year", "BPM", "Length"]

/-- Models `{h.lower(): h for h in all_headers}` followed by lookup: the last
header whose lowercasing equals the key (later dict entries overwrite). -/
def lowerMapLookup (allHeaders : List String) (key : String) : Option String :=
  allHeaders.foldl (fun acc h => if pyLower h = key then some h else acc) none

/-- Canonical headers of the simple variant (line 528): desired-order fields
present case-insensitively, carrying the input's casing. -/
def canonicalHeaders (allHeaders : List String) : List String :=
  desiredOrder.filterMap (fun h => lowerMapLookup allHeaders (pyLower h))

/-- Primary fields of the simple variant (line 530): exact-case membership. -/
def primaryFieldsOf (headers : List String) : List String :=
  (["Title", "Remix", "Artist"]).filter (fun f => headers.contains f)

/-- Secondary fields of the simple variant (line 531). -/
def secondaryFieldsOf (headers : List String) : List String :=
  dedupFields.filter (fun f => !(primaryFieldsOf headers).contains f && headers.contains f)

/-- Indices of the primary fields in the canonical headers (line 533). -/
def primaryIdxOf (headers : List String) : List Nat :=
  (primaryFieldsOf headers).map (fun f => headers.indexOf f)

/-- Indices of the secondary fields in the canonical headers (line 534). -/
def secondaryIdxOf (headers : List String) : List Nat :=
  (secondaryFieldsOf headers).map (fun f => headers.indexOf f)

/-- Models `{h.lower(): i for i, h in enumerate(header)}` followed by lookup:
the last position whose lowercased header equals the key. -/
def headerIdxLookup (sheetHeader : List String) (key : String) : Option Nat :=
  (sheetHeader.enum).foldl
    (fun acc p => if pyLower p.2 = key then some p.1 else acc) none

/-- Embeds the first, dead-store alignment comprehension (lines 544-547):
`row[header_map.get(h.lower(), "")] if header_map.get(h.lower(), "") != "" else ""`.
Indexing a row shorter than the source column position raises `IndexError`,
modelled by `none`. -/
def alignedFirstPass (sheetHeader row headers : List String) :
    Option (List String) :=
  headers.mapM fun h =>
    match headerIdxLookup sheetHeader (pyLower h) with
    | none => some ""
    | some i => row[i]?

/-- Embeds the corrected alignment loop (lines 549-555): case-insensitive
column lookup, empty string when the column is absent or the row too short. -/
def alignRow (sheetHeader row headers : List String) : List String :=
  headers.map fun h =>
    match headerIdxLookup sheetHeader (pyLower h) with
    | some i => if i < row.length then row.getD i "" else ""
    | none => ""

/-- Primary-key part of the exact match rule (lines 560-562): every primary
field exactly equal, including both empty. -/
def allPrimaryEqual (pIdx : List Nat) (aligned other : List String) : Bool :=
  pIdx.all fun i => aligned.getD i "" == other.getD i ""

/-- Secondary part of the exact match rule (lines 565-572): every secondary
field empty on either side or equal. -/
def secondaryCompatible (sIdx : List Nat) (aligned other : List String) : Bool :=
  sIdx.all fun i =>
    aligned.getD i "" == "" || other.getD i "" == "" ||
      aligned.getD i "" == other.getD i ""

/-- Full exact match rule (lines 560-573): all primaries equal and all
secondaries compatible. -/
def rowMatchesB (pIdx sIdx : List Nat) (aligned other : List String) : Bool :=
  allPrimaryEqual pIdx aligned other && secondaryCompatible sIdx aligned other

/-- Fold one aligned row into the group list (lines 557-578): bump the count
of the first exactly-matching group, else append a fresh group. -/
def insertRow (pIdx sIdx : List Nat) (aligned : List String) :
    List DedupGroup → List DedupGroup
  | [] => [⟨aligned, 1, ""⟩]
  | g :: gs =>
    if rowMatchesB pIdx sIdx aligned g.data then
      { g with count := g.count + 1 } :: gs
    else
      g :: insertRow pIdx sIdx aligned gs

/-- Per-field compatibility test of the soft pass (lines 589-601): either side
empty, or similarity at least one half, or equal cleaned values. -/
def allSimilarFields (d1 d2 : List String) (idxs : List Nat) : Bool :=
  idxs.all fun i =>
    let v1 := d1.getD i ""
    let v2 := d2.getD i ""
    v1 == "" || v2 == "" || decide ((1 : ℚ) / 2 ≤ string_similarity v1 v2) ||
      clean_title v1 == clean_title v2

/-- Flag condition of the soft pass for one ordered pair of group data rows
(lines 586-604). -/
def softPairCond (pIdx sIdx : List Nat) (d1 d2 : List String) : Bool :=
  let allIdx := pIdx ++ sIdx
  let shared := get_shared_filled_fields d1 d2 allIdx
  let score := get_dedup_match_score d1 d2 allIdx
  let requiredShared : Nat := if 3 ≤ pIdx.length then 2 else 1
  decide ((1 : ℚ) / 2 ≤ score) && decide (requiredShared ≤ shared) &&
    allSimilarFields d1 d2 allIdx

/-- Set the group at one position to `"soft"` when it is still unmarked
(lines 605-608). -/
def softenAt : List DedupGroup → Nat → List DedupGroup
  | [], _ => []
  | g :: gs, 0 => (if g.matchKind = "" then { g with matchKind := "soft" } else g) :: gs
  | g :: gs, n + 1 => g :: softenAt gs n

/-- Process one pair `(i, j)` of the soft pass (lines 582-608). -/
def flagPair (pIdx sIdx : List Nat) (gs : List DedupGroup) (ij : Nat × Nat) :
    List DedupGroup :=
  if softPairCond pIdx sIdx (gs.getD ij.1 default).data (gs.getD ij.2 default).data then
    softenAt (softenAt gs ij.1) ij.2
  else gs

/-- All index pairs `i < j < n` in the visiting order of the nested loops. -/
def pairList (n : Nat) : List (Nat × Nat) :=
  (List.range n).flatMap fun i =>
    ((List.range n).filter fun j => i < j).map fun j => (i, j)

/-- The soft-match flagging pass over the finished group list (lines 580-608). -/
def softPass (pIdx sIdx : List Nat) (gs : List DedupGroup) : List DedupGroup :=
  (pairList gs.length).foldl (flagPair pIdx sIdx) gs

/-- Fold one row of a sheet: evaluating the first (dead-store) comprehension
may raise; the value actually used downstream is the corrected alignment. -/
def processRow (pIdx sIdx : List Nat) (headers sheetHeader : List String)
    (groups : List DedupGroup) (row : List String) : Except String (List DedupGroup) :=
  match alignedFirstPass sheetHeader row headers with
  | none => .error "IndexError"
  | some _ => .ok (insertRow pIdx sIdx (alignRow sheetHeader row headers) groups)

/-- Fold all rows of one sheet into the group list (lines 538-578). -/
def processSheet (pIdx sIdx : List Nat) (headers : List String)
    (groups : List DedupGroup) (sheet : Sheet) : Except String (List DedupGroup) :=
  sheet.rows.foldlM (processRow pIdx sIdx headers sheet.header) groups

/-- Embeds `deduplicate_rows_with_soft_match` (lines 522-610): canonical
headers, exact grouping in input order, then the soft-match pass. -/
def deduplicate_rows_with_soft_match (sheetData : List Sheet)
    (allHeaders : List String) : Except String DedupResult :=
  let headers := canonicalHeaders allHeaders
  let pIdx := primaryIdxOf headers
  let sIdx := secondaryIdxOf headers
  (sheetData.foldlM (processSheet pIdx sIdx headers) []).map fun groups =>
    ⟨headers, softPass pIdx sIdx groups⟩

/-- Canonical headers of the consolidation variant (lines 795-801): the
desired-order fields present, then the observed 4-digit year columns not
already included, in first-seen order. -/
def canonicalHeadersCS (allHeaders : List String) : List String :=
  let base := desiredOrder.filterMap (fun h => lowerMapLookup allHeaders (pyLower h))
  base ++ (allHeaders.filter fun h => isYear4 h).filter (fun y => !base.contains y)

/-- Primary fields of the consolidation variant (lines 803-804):
case-insensitive presence, mapped to the retained casing. -/
def primaryFieldsCS (allHeaders : List String) : List String :=
  (["Title", "Remix", "Artist"]).filterMap
    (fun f => lowerMapLookup allHeaders (pyLower f))

/-- Secondary fields of the consolidation variant (lines 805-808). -/
def secondaryFieldsCS (allHeaders : List String) : List String :=
  (dedupFields.filter fun f =>
      !(primaryFieldsCS allHeaders).contains f &&
        (lowerMapLookup allHeaders (pyLower f)).isSome).filterMap
    (fun f => lowerMapLookup allHeaders (pyLower f))

/-- Year-bucket merge on a matched group (lines 846-858): every 4-digit
header's cell becomes the string of the integer sum of both sides, parsing
empty or non-numeric cells as `0`; other cells keep the group's value. -/
def mergeYearCells : List String → List String → List String → List String
  | h :: hs, a :: as, o :: os =>
    (if isYear4 h then toString (cellInt a + cellInt o) else o) ::
      mergeYearCells hs as os
  | _, _, other => other

/-- Fold one aligned row into the consolidation group list (lines 830-863):
on the first exact match, sum the year buckets and bump the count. -/
def insertRowCS (pIdx sIdx : List Nat) (headers aligned : List String) :
    List DedupGroup → List DedupGroup
  | [] => [⟨aligned, 1, ""⟩]
  | g :: gs =>
    if rowMatchesB pIdx sIdx aligned g.data then
      { g with data := mergeYearCells headers aligned g.data, count := g.count + 1 } :: gs
    else
      g :: insertRowCS pIdx sIdx headers aligned gs

/-- Write one cell of a row, leaving the row unchanged when out of range. -/
def setCell : List String → Nat → String → List String
  | [], _, _ => []
  | _ :: t, 0, v => v :: t
  | c :: t, n + 1, v => c :: setCell t n v

/-- One loop iteration of the emission-time zero clearing (lines 740-743). -/
def zcStep (headers : List String) (r : List String) (y : String) : List String :=
  let i := headers.indexOf y
  if i < r.length && r.getD i "" == "0" then setCell r i "" else r

/-- Emission-time zero clearing of the consolidation variant (lines 736-743):
for each year column, the cell at its first header position is rewritten from
the literal `"0"` to the empty string. -/
def zeroCleanRow (headers : List String) (row : List String) : List String :=
  (headers.filter fun h => isYear4 h).foldl (zcStep headers) row

/-- Embeds the closure `should_exclude` (lines 466-468): case-insensitive
substring test against the three exclusion phrases. -/
def should_exclude (comment : String) : Bool :=
  let lc := pyLower comment
  pyContains lc "routine |" || pyContains lc "the open 2024" || pyContains lc "fx |"

/-- Models `headers.index(name)` under `try/except ValueError` (lines 443-450):
the first exact-case position, `none` for `-1`. -/
def idxOf? (headers : List String) (name : String) : Option Nat :=
  headers.findIdx? (fun h => h == name)

/-- Sort key of the output sort (lines 454-461): the Title cell when a Title
column was found, otherwise the constant empty string. -/
def titleKeyOf (titleIdx : Option Nat) (g : DedupGroup) : String :=
  match titleIdx with
  | some i => g.data.getD i ""
  | none => ""

/-- Comment cell used by the exclusion filter (line 475). -/
def commentCellOf (commentIdx : Option Nat) (g : DedupGroup) : String :=
  match commentIdx with
  | some i => g.data.getD i ""
  | none => ""

/-- Lexicographic comparison of character lists by code point: models
Python's `<` on strings. -/
def charListLt : List Char → List Char → Bool
  | [], [] => false
  | [], _ :: _ => true
  | _ :: _, [] => false
  | a :: as, b :: bs => a < b || (a = b && charListLt as bs)

/-- Boolean `a ≤ b` on strings by code point: models Python's string order. -/
def strLeB (a b : String) : Bool :=
  !charListLt b.data a.data

/-- Stable insertion step of the output sort: a new (earlier) element goes in
front of every element of equal key. -/
def pyInsert (key : DedupGroup → String) (x : DedupGroup) : List DedupGroup → List DedupGroup
  | [] => [x]
  | y :: l => if strLeB (key x) (key y) then x :: y :: l else y :: pyInsert key x l

/-- Models Python's stable `sorted(lst, key=...)` (stable sorts with equal
comparisons produce identical output, so insertion sort is a faithful
model). -/
def pySort (key : DedupGroup → String) : List DedupGroup → List DedupGroup
  | [] => []
  | x :: l => pyInsert key x (pySort key l)

/-- One emitted partition of `deduplicate_summaries` (lines 454-486): sort by
the Title key, then drop the groups whose Comment matches an exclusion
phrase (the order of `add_rows`). -/
def emitPartition (titleIdx commentIdx : Option Nat) (part : List DedupGroup) :
    List DedupGroup :=
  (pySort (titleKeyOf titleIdx) part).filter
    (fun g => !should_exclude (commentCellOf commentIdx g))

/-- The ordered groups emitted by `deduplicate_summaries` (lines 443-486):
positive-count groups split into soft and other partitions, each sorted and
exclusion-filtered, soft first. -/
def summaryEmit (headers : List String) (gs : List DedupGroup) : List DedupGroup :=
  let titleIdx := idxOf? headers "Title"
  let commentIdx := idxOf? headers "Comment"
  let withCount := gs.filter (fun g => 0 < g.count)
  let softs := withCount.filter (fun g => g.matchKind == "soft")
  let others := withCount.filter (fun g => g.matchKind != "soft")
  emitPartition titleIdx commentIdx softs ++ emitPartition titleIdx commentIdx others

/-- Final value rows of `deduplicate_summaries` (lines 463-486): the header
row with `Count` appended, then each emitted group's data with its count. -/
def summaryFinalRows (headers : List String) (gs : List DedupGroup) :
    List (List String) :=
  (headers ++ ["Count"]) ::
    (summaryEmit headers gs).map (fun g => g.data ++ [toString g.count])

/-- All aligned rows of the whole input, in processing order. -/
def allAligned (sheetData : List Sheet) (headers : List String) :
    List (List String) :=
  sheetData.flatMap fun sh => sh.rows.map fun row => alignRow sh.header row headers

/-- The exact-grouping loop as a fold over already-aligned rows. -/
def foldRows (pIdx sIdx : List Nat) (gs : List DedupGroup)
    (rows : List (List String)) : List DedupGroup :=
  rows.foldl (fun gs a => insertRow pIdx sIdx a gs) gs

/-- Modelled from the spec (§4.3): `normalizedSimilarity(a, b)` is
`1 - editDistance(a, b) / max(len(a), len(b))`, and `0` when both strings are
empty.  Used only to compare the spec's claimed formula against the code. -/
def similaritySpec (a b : String) : ℚ :=
  if a.data.length = 0 ∧ b.data.length = 0 then 0
  else
    1 - ((levenshtein Levenshtein.defaultCost a.data b.data : ℕ) : ℚ) /
      ((max a.data.length b.data.length : Nat) : ℚ)

/-- Modelled from the spec (§4.3): `matchScore(rowA, rowB, fieldIndices)`
where an index with either side empty contributes `1` to both numerator and
denominator, an index with both sides filled contributes the similarity to
the numerator and `1` to the denominator, and the result is
`numerator/denominator`, or `0` when the denominator is `0`.  Used only to
compare the spec's claimed formula against the code. -/
def matchScoreSpec (data1 data2 : List String) (indices : List Nat) : ℚ :=
  let num : ℚ := (indices.map fun i =>
    if data1.getD i "" = "" ∨ data2.getD i "" = "" then (1 : ℚ)
    else string_similarity (data1.getD i "") (data2.getD i "")).sum
  if indices.length = 0 then 0 else num / (indices.length : ℚ)

/-!  Helper lemmas. -/

theorem mergeAdjacent_sum (l : List (Nat × Nat × Nat)) (acc : Nat × Nat × Nat) :
    ((mergeAdjacent l acc).map (fun t => t.2.2)).sum =
      acc.2.2 + (l.map (fun t => t.2.2)).sum := by
  induction l generalizing acc with
  | nil =>
    by_cases h : acc.2.2 ≠ 0 <;> simp [mergeAdjacent, h] <;> omega
  | cons x t ih =>
    simp only [mergeAdjacent]
    split
    · rw [ih]
      simp; omega
    · by_cases h : acc.2.2 ≠ 0 <;> simp [h, ih t.length.succ, ih, List.sum_append] <;> omega

theorem matchBlocksAux_sum (a b : List Char) (fuel alo ahi blo bhi : Nat) :
    ((matchBlocksAux a b fuel alo ahi blo bhi).map (fun t => t.2.2)).sum =
      matchesTotalAux a b fuel alo ahi blo bhi := by
  induction fuel generalizing alo ahi blo bhi with
  | zero => simp [matchBlocksAux, matchesTotalAux]
  | succ fuel ih =>
    simp only [matchBlocksAux, matchesTotalAux]
    split
    · simp
    · simp [List.map_append, List.sum_append, ih]
      omega

theorem string_similarity_formula (a b : String) :
    string_similarity a b =
      if a.data.length + b.data.length = 0 then 1
      else 2 * (matchesTotal a.data b.data : ℚ) /
        ((a.data.length + b.data.length : Nat) : ℚ) := by
  simp only [string_similarity, getMatchingBlocks, matchesTotal, List.map_append,
    List.sum_append, mergeAdjacent_sum, matchBlocksAux_sum]
  norm_num

theorem string_similarity_eval (a b : String) (m n : Nat)
    (hm : matchesTotal a.data b.data = m) (hn : a.data.length + b.data.length = n)
    (hn0 : 0 < n) : string_similarity a b = 2 * (m : ℚ) / (n : ℚ) := by
  rw [string_similarity_formula, hm, hn, if_neg (by omega)]

theorem scoreStep_foldl (d1 d2 : List String) (idxs : List Nat) (acc : ℚ × Nat) :
    idxs.foldl (scoreStep d1 d2) acc =
      (acc.1 + ((idxs.filter fun i => d1.getD i "" != "" && d2.getD i "" != "").map
          fun i => string_similarity (d1.getD i "") (d2.getD i "")).sum,
        acc.2 + (idxs.filter fun i => d1.getD i "" != "" && d2.getD i "" != "").length) := by
  induction idxs generalizing acc with
  | nil => simp
  | cons i t ih =>
    by_cases h : (d1.getD i "" != "" && d2.getD i "" != "") = true
    · simp only [List.foldl_cons, scoreStep, h, if_pos, List.filter_cons_of_pos, ih,
        List.map_cons, List.sum_cons, List.length_cons, Prod.mk.injEq]
      constructor
      · ring
      · omega
    · rw [List.foldl_cons]
      have hstep : scoreStep d1 d2 acc i = acc := by
        simp only [scoreStep]
        rw [if_neg]
        simpa using h
      rw [hstep, ih, List.filter_cons_of_neg (by simpa using h)]

/-- C3 (amended): `string_similarity` returns the `difflib.SequenceMatcher`
ratio — twice the total size of the matching blocks divided by the summed
length of both strings — and returns `1` (not `0`) when both strings are
empty; it is not the edit-distance formula the spec states. -/
theorem c3_string_similarity_is_ratio :
    (∀ a b : String,
      string_similarity a b =
        if a.data.length + b.data.length = 0 then 1
        else 2 * (matchesTotal a.data b.data : ℚ) /
          ((a.data.length + b.data.length : Nat) : ℚ)) ∧
    string_similarity "" "" = 1 := by
  refine ⟨string_similarity_formula, ?_⟩
  rw [string_similarity_formula]
  simp

/-- C3 (counterexample): on two empty strings the code returns `1` while the
claimed formula demands `0`, and at `("ab", "ba")` the code returns `1/2`
while the claimed formula gives `0`. -/
theorem c3_counterexample :
    string_similarity "" "" ≠ similaritySpec "" "" ∧
    string_similarity "ab" "ba" ≠ similaritySpec "ab" "ba" := by
  constructor
  · rw [string_similarity_formula]
    simp [similaritySpec]
  · rw [string_similarity_eval "ab" "ba" 1 4 (by decide) (by decide) (by norm_num)]
    have h : (levenshtein Levenshtein.defaultCost "ab".data "ba".data : ℕ) = 2 := by
      decide
    simp only [similaritySpec, h]
    norm_num

/-- C6 (counterexample): `clean_title` does not strip parenthetical
segments, so the two titles the spec requires to normalize equal do not. -/
theorem c6_counterexample :
    clean_title "Song (Radio Edit)" ≠ clean_title "Song" ∧
    clean_title "Song (Radio Edit)" = "song (radio edit)" ∧
    clean_title "Song" = "song" := by
  refine ⟨by decide, by decide, by decide⟩

/-- C6 (amended): `clean_title` lowercases and strips surrounding whitespace
only; parenthetical segments are preserved, so `"Song (Radio Edit)"` and
`"Song"` do not normalize equal. -/
theorem c6_clean_title_lower_strip :
    (∀ s : String, (clean_title s).data = pyStripList (s.data.map Char.toLower)) ∧
    clean_title " Song (Radio Edit) " = "song (radio edit)" ∧
    clean_title "Song (Radio Edit)" ≠ "song" := by
  refine ⟨fun s => rfl, by decide, by decide⟩

/-- C7: the dead-store alignment comprehension of lines 544-547 indexes the
raw row at the source column position, so a ragged row (shorter than its own
header) raises `IndexError` instead of being padded with empty strings; the
corrected loop right below it (lines 549-555) produces the padded row the
spec describes. -/
theorem c7_ragged_row_raises :
    deduplicate_rows_with_soft_match [⟨["Title", "Artist"], [["Song"]]⟩]
        ["Title", "Artist"] = .error "IndexError" ∧
    alignedFirstPass ["Title", "Artist"] ["Song"] ["Title", "Artist"] = none ∧
    alignRow ["Title", "Artist"] ["Song"] ["Title", "Artist"] = ["Song", ""] := by
  refine ⟨by decide, by decide, by decide⟩

/-- C2 (amended): `get_dedup_match_score` skips every index where either side
is empty — such indices contribute to neither numerator nor denominator —
averages the similarity over the indices where both sides are filled, and
returns `0` when no index has both sides filled. -/
theorem c2_match_score_skips_empty (d1 d2 : List String) (idxs : List Nat) :
    get_dedup_match_score d1 d2 idxs =
      if (idxs.filter fun i => d1.getD i "" != "" && d2.getD i "" != "").length = 0
      then 0
      else ((idxs.filter fun i => d1.getD i "" != "" && d2.getD i "" != "").map
          fun i => string_similarity (d1.getD i "") (d2.getD i "")).sum /
        (((idxs.filter fun i => d1.getD i "" != "" && d2.getD i "" != "").length : Nat) : ℚ) := by
  simp only [get_dedup_match_score, scoreStep_foldl]
  norm_num

/-- C2 (counterexample): with one row empty on one field and the other row
empty on the other field, the code's score is `0` while the spec's formula
(empty sides contribute `1/1`) gives `1`. -/
theorem c2_counterexample :
    get_dedup_match_score ["", "x"] ["y", ""] [0, 1] = 0 ∧
    matchScoreSpec ["", "x"] ["y", ""] [0, 1] = 1 ∧
    get_dedup_match_score ["", "x"] ["y", ""] [0, 1] ≠
      matchScoreSpec ["", "x"] ["y", ""] [0, 1] := by
  have h1 : get_dedup_match_score ["", "x"] ["y", ""] [0, 1] = 0 := by decide
  have h2 : matchScoreSpec ["", "x"] ["y", ""] [0, 1] = 1 := by
    simp [matchScoreSpec]
  refine ⟨h1, h2, by rw [h1, h2]; norm_num⟩

theorem insertRow_no_match (pIdx sIdx : List Nat) (a : List String)
    (gs : List DedupGroup)
    (h : ∀ g ∈ gs, rowMatchesB pIdx sIdx a g.data = false) :
    insertRow pIdx sIdx a gs = gs ++ [⟨a, 1, ""⟩] := by
  induction gs with
  | nil => rfl
  | cons g t ih =>
    rw [insertRow, if_neg (by simp [h g (List.mem_cons_self g t)]),
      ih (fun x hx => h x (List.mem_cons_of_mem g hx))]
    rfl

theorem insertRow_length_iff (pIdx sIdx : List Nat) (a : List String)
    (gs : List DedupGroup) :
    (insertRow pIdx sIdx a gs).length = gs.length ↔
      ∃ g ∈ gs, rowMatchesB pIdx sIdx a g.data = true := by
  induction gs with
  | nil => simp [insertRow]
  | cons g t ih =>
    by_cases h : rowMatchesB pIdx sIdx a g.data = true
    · simp [insertRow, h]
    · simp only [insertRow, if_neg h, List.length_cons, Nat.add_right_cancel_iff, ih]
      simp [h]

theorem insertRow_count_sum (pIdx sIdx : List Nat) (a : List String)
    (gs : List DedupGroup) :
    ((insertRow pIdx sIdx a gs).map (fun g => g.count)).sum =
      ((gs.map (fun g => g.count)).sum) + 1 := by
  induction gs with
  | nil => simp [insertRow]
  | cons g t ih =>
    by_cases h : rowMatchesB pIdx sIdx a g.data = true
    · simp [insertRow, h]
      omega
    · simp [insertRow, h, ih]
      omega

theorem insertRow_count_pos (pIdx sIdx : List Nat) (a : List String)
    (gs : List DedupGroup) (h0 : ∀ g ∈ gs, 1 ≤ g.count) :
    ∀ g ∈ insertRow pIdx sIdx a gs, 1 ≤ g.count := by
  induction gs with
  | nil =>
    intro g hg
    simp [insertRow] at hg
    simp [hg]
  | cons g t ih =>
    intro g' hg'
    by_cases h : rowMatchesB pIdx sIdx a g.data = true
    · rw [insertRow, if_pos h] at hg'
      rcases List.mem_cons.mp hg' with h1 | h1
      · simp [h1]
      · exact h0 g' (List.mem_cons_of_mem g h1)
    · rw [insertRow, if_neg h] at hg'
      rcases List.mem_cons.mp hg' with h1 | h1
      · exact h1 ▸ h0 g (List.mem_cons_self g t)
      · exact ih (fun x hx => h0 x (List.mem_cons_of_mem g hx)) g' h1

theorem foldRows_append (pIdx sIdx : List Nat) (gs : List DedupGroup)
    (l1 l2 : List (List String)) :
    foldRows pIdx sIdx gs (l1 ++ l2) = foldRows pIdx sIdx (foldRows pIdx sIdx gs l1) l2 := by
  simp [foldRows]

theorem foldRows_count_sum (pIdx sIdx : List Nat) (rows : List (List String)) :
    ∀ gs : List DedupGroup,
      ((foldRows pIdx sIdx gs rows).map (fun g => g.count)).sum =
        ((gs.map (fun g => g.count)).sum) + rows.length := by
  induction rows with
  | nil => intro gs; simp [foldRows]
  | cons r t ih =>
    intro gs
    have : foldRows pIdx sIdx gs (r :: t) = foldRows pIdx sIdx (insertRow pIdx sIdx r gs) t := by
      simp [foldRows]
    rw [this, ih, insertRow_count_sum]
    simp
    omega

theorem foldRows_count_pos (pIdx sIdx : List Nat) (rows : List (List String)) :
    ∀ gs : List DedupGroup, (∀ g ∈ gs, 1 ≤ g.count) →
      ∀ g ∈ foldRows pIdx sIdx gs rows, 1 ≤ g.count := by
  induction rows with
  | nil => intro gs h0; simpa [foldRows] using h0
  | cons r t ih =>
    intro gs h0
    have : foldRows pIdx sIdx gs (r :: t) = foldRows pIdx sIdx (insertRow pIdx sIdx r gs) t := by
      simp [foldRows]
    rw [this]
    exact ih _ (insertRow_count_pos pIdx sIdx r gs h0)

theorem foldRows_single (pIdx sIdx : List Nat) (r0 : List String)
    (rows : List (List String))
    (h : ∀ r ∈ rows, rowMatchesB pIdx sIdx r r0 = true) :
    ∀ k : Nat, foldRows pIdx sIdx [⟨r0, k, ""⟩] rows = [⟨r0, k + rows.length, ""⟩] := by
  induction rows with
  | nil => intro k; simp [foldRows]
  | cons r t ih =>
    intro k
    have hstep : insertRow pIdx sIdx r [⟨r0, k, ""⟩] = [⟨r0, k + 1, ""⟩] := by
      simp [insertRow, h r (List.mem_cons_self r t)]
    have : foldRows pIdx sIdx [⟨r0, k, ""⟩] (r :: t) =
        foldRows pIdx sIdx [⟨r0, k + 1, ""⟩] t := by
      simp [foldRows, hstep]
    rw [this, ih (fun x hx => h x (List.mem_cons_of_mem r hx))]
    simp
    omega

theorem rowsFoldM_ok (pIdx sIdx : List Nat) (headers sheetHeader : List String) :
    ∀ (rows : List (List String)) (gs gs' : List DedupGroup),
      rows.foldlM (processRow pIdx sIdx headers sheetHeader) gs = .ok gs' →
      gs' = foldRows pIdx sIdx gs (rows.map fun r => alignRow sheetHeader r headers) := by
  intro rows
  induction rows with
  | nil =>
    intro gs gs' h
    simp only [List.foldlM_nil, Except.pure] at h
    cases h
    simp [foldRows]
  | cons r t ih =>
    intro gs gs' h
    rw [List.foldlM_cons] at h
    cases halign : alignedFirstPass sheetHeader r headers with
    | none =>
      rw [processRow, halign] at h
      simp [Bind.bind, Except.bind] at h
    | some v =>
      rw [processRow, halign] at h
      simp only [Bind.bind, Except.bind] at h
      have := ih _ _ h
      simp [foldRows] at this ⊢
      exact this

theorem rowsFoldM_isOk (pIdx sIdx : List Nat) (headers sheetHeader : List String) :
    ∀ (rows : List (List String)) (gs : List DedupGroup),
      (∀ r ∈ rows, (alignedFirstPass sheetHeader r headers).isSome = true) →
      ∃ gs', rows.foldlM (processRow pIdx sIdx headers sheetHeader) gs = .ok gs' := by
  intro rows
  induction rows with
  | nil =>
    intro gs _
    exact ⟨gs, rfl⟩
  | cons r t ih =>
    intro gs hall
    rw [List.foldlM_cons]
    cases halign : alignedFirstPass sheetHeader r headers with
    | none =>
      have := hall r (List.mem_cons_self r t)
      rw [halign] at this
      simp at this
    | some v =>
      rw [processRow, halign]
      simpa [Bind.bind, Except.bind] using
        ih (insertRow pIdx sIdx (alignRow sheetHeader r headers) gs)
          (fun x hx => hall x (List.mem_cons_of_mem r hx))

theorem sheetsFoldM_ok (pIdx sIdx : List Nat) (headers : List String) :
    ∀ (sheetData : List Sheet) (gs gs' : List DedupGroup),
      sheetData.foldlM (processSheet pIdx sIdx headers) gs = .ok gs' →
      gs' = foldRows pIdx sIdx gs (allAligned sheetData headers) := by
  intro sheetData
  induction sheetData with
  | nil =>
    intro gs gs' h
    simp only [List.foldlM_nil, Except.pure] at h
    cases h
    simp [foldRows, allAligned]
  | cons sh t ih =>
    intro gs gs' h
    rw [List.foldlM_cons] at h
    cases hsheet : processSheet pIdx sIdx headers gs sh with
    | error e =>
      rw [hsheet] at h
      simp [Bind.bind, Except.bind] at h
    | ok gs1 =>
      rw [hsheet] at h
      simp only [Bind.bind, Except.bind] at h
      have h1 := rowsFoldM_ok pIdx sIdx headers sh.header sh.rows gs gs1 hsheet
      have h2 := ih _ _ h
      rw [h2, h1]
      have : allAligned (sh :: t) headers =
          (sh.rows.map fun r => alignRow sh.header r headers) ++ allAligned t headers := by
        simp [allAligned]
      rw [this, foldRows_append]

theorem sheetsFoldM_isOk (pIdx sIdx : List Nat) (headers : List String) :
    ∀ (sheetData : List Sheet) (gs : List DedupGroup),
      (∀ sh ∈ sheetData, ∀ r ∈ sh.rows,
        (alignedFirstPass sh.header r headers).isSome = true) →
      ∃ gs', sheetData.foldlM (processSheet pIdx sIdx headers) gs = .ok gs' := by
  intro sheetData
  induction sheetData with
  | nil =>
    intro gs _
    exact ⟨gs, rfl⟩
  | cons sh t ih =>
    intro gs hall
    rw [List.foldlM_cons]
    obtain ⟨gs1, hgs1⟩ := rowsFoldM_isOk pIdx sIdx headers sh.header sh.rows gs
      (fun r hr => hall sh (List.mem_cons_self sh t) r hr)
    rw [show processSheet pIdx sIdx headers gs sh =
      sh.rows.foldlM (processRow pIdx sIdx headers sh.header) gs from rfl, hgs1]
    simpa [Bind.bind, Except.bind] using
      ih gs1 (fun x hx => hall x (List.mem_cons_of_mem sh hx))

theorem dedup_ok_elim (sheetData : List Sheet) (allHeaders : List String)
    (res : DedupResult)
    (h : deduplicate_rows_with_soft_match sheetData allHeaders = .ok res) :
    res = ⟨canonicalHeaders allHeaders,
      softPass (primaryIdxOf (canonicalHeaders allHeaders))
        (secondaryIdxOf (canonicalHeaders allHeaders))
        (foldRows (primaryIdxOf (canonicalHeaders allHeaders))
          (secondaryIdxOf (canonicalHeaders allHeaders)) []
          (allAligned sheetData (canonicalHeaders allHeaders)))⟩ := by
  simp only [deduplicate_rows_with_soft_match] at h
  cases hfold : sheetData.foldlM
      (processSheet (primaryIdxOf (canonicalHeaders allHeaders))
        (secondaryIdxOf (canonicalHeaders allHeaders)) (canonicalHeaders allHeaders)) [] with
  | error e =>
    rw [hfold] at h
    simp [Except.map] at h
  | ok gs =>
    rw [hfold] at h
    simp only [Except.map] at h
    cases h
    rw [sheetsFoldM_ok _ _ _ _ _ _ hfold]

theorem softenAt_map_dc (gs : List DedupGroup) (n : Nat) :
    (softenAt gs n).map (fun g => (g.data, g.count)) =
      gs.map (fun g => (g.data, g.count)) := by
  induction gs generalizing n with
  | nil => simp [softenAt]
  | cons g t ih =>
    cases n with
    | zero => by_cases h : g.matchKind = "" <;> simp [softenAt, h]
    | succ m => simp [softenAt, ih]

theorem flagPair_map_dc (pIdx sIdx : List Nat) (gs : List DedupGroup)
    (ij : Nat × Nat) :
    (flagPair pIdx sIdx gs ij).map (fun g => (g.data, g.count)) =
      gs.map (fun g => (g.data, g.count)) := by
  unfold flagPair
  split
  · rw [softenAt_map_dc, softenAt_map_dc]
  · rfl

theorem flagFold_map_dc (pIdx sIdx : List Nat) :
    ∀ (ps : List (Nat × Nat)) (gs : List DedupGroup),
      ((ps.foldl (flagPair pIdx sIdx) gs).map (fun g => (g.data, g.count))) =
        gs.map (fun g => (g.data, g.count)) := by
  intro ps
  induction ps with
  | nil => intro gs; rfl
  | cons ij t ih =>
    intro gs
    rw [List.foldl_cons, ih, flagPair_map_dc]

theorem softPass_map_dc (pIdx sIdx : List Nat) (gs : List DedupGroup) :
    (softPass pIdx sIdx gs).map (fun g => (g.data, g.count)) =
      gs.map (fun g => (g.data, g.count)) :=
  flagFold_map_dc pIdx sIdx (pairList gs.length) gs

theorem softPass_length (pIdx sIdx : List Nat) (gs : List DedupGroup) :
    (softPass pIdx sIdx gs).length = gs.length := by
  have := congrArg List.length (softPass_map_dc pIdx sIdx gs)
  simpa using this

theorem softPass_map_count (pIdx sIdx : List Nat) (gs : List DedupGroup) :
    (softPass pIdx sIdx gs).map (fun g => g.count) = gs.map (fun g => g.count) := by
  have := congrArg (List.map Prod.snd) (softPass_map_dc pIdx sIdx gs)
  simpa [List.map_map, Function.comp] using this

theorem softPass_map_data (pIdx sIdx : List Nat) (gs : List DedupGroup) :
    (softPass pIdx sIdx gs).map (fun g => g.data) = gs.map (fun g => g.data) := by
  have := congrArg (List.map Prod.fst) (softPass_map_dc pIdx sIdx gs)
  simpa [List.map_map, Function.comp] using this

theorem grouping_single_group (sheetData : List Sheet) (allHeaders : List String)
    (res : DedupResult)
    (hok : deduplicate_rows_with_soft_match sheetData allHeaders = .ok res)
    (hne : allAligned sheetData (canonicalHeaders allHeaders) ≠ [])
    (hcompat : ∀ r ∈ allAligned sheetData (canonicalHeaders allHeaders),
      ∀ r' ∈ allAligned sheetData (canonicalHeaders allHeaders),
        rowMatchesB (primaryIdxOf (canonicalHeaders allHeaders))
          (secondaryIdxOf (canonicalHeaders allHeaders)) r r' = true) :
    res.rowsWithMeta.length = 1 ∧
      ∀ g ∈ res.rowsWithMeta,
        g.count = (allAligned sheetData (canonicalHeaders allHeaders)).length := by
  have hres := dedup_ok_elim _ _ _ hok
  subst hres
  obtain ⟨r0, rest, hcons⟩ := List.exists_cons_of_ne_nil hne
  simp only [hcons] at hcompat ⊢
  have h1 : foldRows (primaryIdxOf (canonicalHeaders allHeaders))
      (secondaryIdxOf (canonicalHeaders allHeaders)) [] (r0 :: rest) =
      foldRows (primaryIdxOf (canonicalHeaders allHeaders))
        (secondaryIdxOf (canonicalHeaders allHeaders)) [⟨r0, 1, ""⟩] rest := by
    simp [foldRows, insertRow]
  have h2 := foldRows_single (primaryIdxOf (canonicalHeaders allHeaders))
    (secondaryIdxOf (canonicalHeaders allHeaders)) r0 rest
    (fun r hr => hcompat r (List.mem_cons_of_mem r0 hr) r0 (List.mem_cons_self r0 rest)) 1
  rw [h1, h2]
  constructor
  · rw [softPass_length]
    rfl
  · intro g hg
    have hmc := softPass_map_count (primaryIdxOf (canonicalHeaders allHeaders))
      (secondaryIdxOf (canonicalHeaders allHeaders)) [⟨r0, 1 + rest.length, ""⟩]
    have hlen : (softPass (primaryIdxOf (canonicalHeaders allHeaders))
        (secondaryIdxOf (canonicalHeaders allHeaders)) [⟨r0, 1 + rest.length, ""⟩]).length = 1 := by
      rw [softPass_length]
      rfl
    obtain ⟨g', hg'⟩ := List.length_eq_one.mp hlen
    rw [hg'] at hg hmc
    simp at hg hmc
    rw [hg, hmc]
    simp
    omega

/-- C1: an incoming aligned row merges into an existing group exactly when
every primary field is exactly equal (including both empty) and every
secondary field is empty on either side or equal (first conjunct: merging
happens, i.e. no new group is appended, iff some existing group satisfies the
rule; a row matching no group is appended as a fresh group); and an input
whose aligned rows all share primary values and are pairwise
secondary-compatible produces exactly one group whose count is the number of
rows (second conjunct). -/
theorem c1_exact_grouping :
    (∀ (pIdx sIdx : List Nat) (aligned : List String) (gs : List DedupGroup),
      ((insertRow pIdx sIdx aligned gs).length = gs.length ↔
        ∃ g ∈ gs, (allPrimaryEqual pIdx aligned g.data &&
          secondaryCompatible sIdx aligned g.data) = true) ∧
      ((∀ g ∈ gs, (allPrimaryEqual pIdx aligned g.data &&
          secondaryCompatible sIdx aligned g.data) = false) →
        insertRow pIdx sIdx aligned gs = gs ++ [⟨aligned, 1, ""⟩])) ∧
    (∀ (sheetData : List Sheet) (allHeaders : List String) (res : DedupResult),
      deduplicate_rows_with_soft_match sheetData allHeaders = .ok res →
      allAligned sheetData (canonicalHeaders allHeaders) ≠ [] →
      (∀ r ∈ allAligned sheetData (canonicalHeaders allHeaders),
        ∀ r' ∈ allAligned sheetData (canonicalHeaders allHeaders),
          (allPrimaryEqual (primaryIdxOf (canonicalHeaders allHeaders)) r r' &&
            secondaryCompatible (secondaryIdxOf (canonicalHeaders allHeaders)) r r') = true) →
      res.rowsWithMeta.length = 1 ∧
        ∀ g ∈ res.rowsWithMeta,
          g.count = (allAligned sheetData (canonicalHeaders allHeaders)).length) := by
  constructor
  · intro pIdx sIdx aligned gs
    exact ⟨insertRow_length_iff pIdx sIdx aligned gs,
      insertRow_no_match pIdx sIdx aligned gs⟩
  · intro sheetData allHeaders res hok hne hcompat
    exact grouping_single_group sheetData allHeaders res hok hne hcompat

/-- C1 (witness): three rows sharing Title and Artist, with comments
`"c1"`, `""`, `"c1"` (pairwise compatible), collapse to one group of
count three. -/
theorem c1_witness :
    (DedupResult.mk ["Title", "Artist", "Comment"]
        [⟨["Song", "A", "c1"], 3, ""⟩]).rowsWithMeta.length = 1 ∧
    ∀ g ∈ (DedupResult.mk ["Title", "Artist", "Comment"]
        [⟨["Song", "A", "c1"], 3, ""⟩]).rowsWithMeta,
      g.count = (allAligned
        [⟨["Title", "Artist", "Comment"],
          [["Song", "A", "c1"], ["Song", "A", ""], ["Song", "A", "c1"]]⟩]
        (canonicalHeaders ["Title", "Artist", "Comment"])).length :=
  c1_exact_grouping.2
    [⟨["Title", "Artist", "Comment"],
      [["Song", "A", "c1"], ["Song", "A", ""], ["Song", "A", "c1"]]⟩]
    ["Title", "Artist", "Comment"]
    (DedupResult.mk ["Title", "Artist", "Comment"] [⟨["Song", "A", "c1"], 3, ""⟩])
    (by decide) (by decide) (by decide)

theorem allAligned_length (sheetData : List Sheet) (headers : List String) :
    (allAligned sheetData headers).length =
      (sheetData.map (fun sh => sh.rows.length)).sum := by
  induction sheetData with
  | nil => simp [allAligned]
  | cons sh t ih =>
    simp only [allAligned, List.flatMap_cons] at ih ⊢
    simp [ih]

/-- C10: over any input the simple-variant deduplication accepts, the counts
of the returned groups sum to the total number of data rows across all input
sheets, and every group's count is at least one. -/
theorem c10_count_conservation (sheetData : List Sheet) (allHeaders : List String)
    (res : DedupResult)
    (h : deduplicate_rows_with_soft_match sheetData allHeaders = .ok res) :
    ((res.rowsWithMeta.map (fun g => g.count)).sum =
      (sheetData.map (fun sh => sh.rows.length)).sum) ∧
    ∀ g ∈ res.rowsWithMeta, 1 ≤ g.count := by
  have hres := dedup_ok_elim _ _ _ h
  subst hres
  constructor
  · rw [softPass_map_count, foldRows_count_sum,
      ← allAligned_length sheetData (canonicalHeaders allHeaders)]
    simp
  · intro g hg
    have hmc := softPass_map_count (primaryIdxOf (canonicalHeaders allHeaders))
      (secondaryIdxOf (canonicalHeaders allHeaders))
      (foldRows (primaryIdxOf (canonicalHeaders allHeaders))
        (secondaryIdxOf (canonicalHeaders allHeaders)) []
        (allAligned sheetData (canonicalHeaders allHeaders)))
    have hin : g.count ∈ (foldRows (primaryIdxOf (canonicalHeaders allHeaders))
        (secondaryIdxOf (canonicalHeaders allHeaders)) []
        (allAligned sheetData (canonicalHeaders allHeaders))).map (fun g => g.count) := by
      rw [← hmc]
      exact List.mem_map_of_mem (fun g => g.count) hg
    obtain ⟨g', hg', hcount⟩ := List.mem_map.mp hin
    rw [← hcount]
    exact foldRows_count_pos _ _ _ [] (by simp) g' hg'

/-- C10 (witness): the three-row input folds to a single group of count
three, equal to the number of data rows, and all counts are positive. -/
theorem c10_witness :
    ((DedupResult.mk ["Title", "Artist", "Comment"]
        [⟨["Song", "A", "c1"], 3, ""⟩]).rowsWithMeta.map (fun g => g.count)).sum =
      ((([⟨["Title", "Artist", "Comment"],
        [["Song", "A", "c1"], ["Song", "A", ""], ["Song", "A", "c1"]]⟩] :
          List Sheet).map (fun sh => sh.rows.length)).sum) ∧
    ∀ g ∈ (DedupResult.mk ["Title", "Artist", "Comment"]
        [⟨["Song", "A", "c1"], 3, ""⟩]).rowsWithMeta, 1 ≤ g.count :=
  c10_count_conservation
    [⟨["Title", "Artist", "Comment"],
      [["Song", "A", "c1"], ["Song", "A", ""], ["Song", "A", "c1"]]⟩]
    ["Title", "Artist", "Comment"]
    (DedupResult.mk ["Title", "Artist", "Comment"] [⟨["Song", "A", "c1"], 3, ""⟩])
    (by decide)

/-- C5 (counterexample): with no primary field in the canonical headers
(only Comment and Genre), the implementation does not raise any
precondition error: it returns a normal result in which the two
secondary-compatible rows were silently merged into one group. -/
theorem c5_counterexample :
    deduplicate_rows_with_soft_match [⟨["Comment", "Genre"], [["a", ""], ["", "y"]]⟩]
        ["Comment", "Genre"] =
      .ok ⟨["Comment", "Genre"], [⟨["a", ""], 2, ""⟩]⟩ := by
  decide

/-- C5 (amended): when no primary field is present the implementation does
not raise: the primary index list is empty, the exact match rule degenerates
to secondary compatibility alone, the function returns a normal result
whenever row alignment succeeds, and pairwise secondary-compatible inputs
collapse into a single group. -/
theorem c5_no_primary_no_raise :
    (∀ allHeaders : List String,
      primaryFieldsOf (canonicalHeaders allHeaders) = [] →
      primaryIdxOf (canonicalHeaders allHeaders) = [] ∧
      ∀ (sIdx : List Nat) (aligned other : List String),
        rowMatchesB (primaryIdxOf (canonicalHeaders allHeaders)) sIdx aligned other =
          secondaryCompatible sIdx aligned other) ∧
    (∀ (sheetData : List Sheet) (allHeaders : List String),
      (∀ sh ∈ sheetData, ∀ row ∈ sh.rows,
        (alignedFirstPass sh.header row (canonicalHeaders allHeaders)).isSome = true) →
      ∃ res, deduplicate_rows_with_soft_match sheetData allHeaders = .ok res) ∧
    (∀ (sheetData : List Sheet) (allHeaders : List String) (res : DedupResult),
      primaryFieldsOf (canonicalHeaders allHeaders) = [] →
      deduplicate_rows_with_soft_match sheetData allHeaders = .ok res →
      allAligned sheetData (canonicalHeaders allHeaders) ≠ [] →
      (∀ r ∈ allAligned sheetData (canonicalHeaders allHeaders),
        ∀ r' ∈ allAligned sheetData (canonicalHeaders allHeaders),
          secondaryCompatible (secondaryIdxOf (canonicalHeaders allHeaders)) r r' = true) →
      res.rowsWithMeta.length = 1) := by
  refine ⟨?_, ?_, ?_⟩
  · intro allHeaders hnone
    have hidx : primaryIdxOf (canonicalHeaders allHeaders) = [] := by
      rw [primaryIdxOf, hnone]
      rfl
    refine ⟨hidx, ?_⟩
    intro sIdx aligned other
    rw [rowMatchesB, hidx]
    simp [allPrimaryEqual]
  · intro sheetData allHeaders halign
    simp only [deduplicate_rows_with_soft_match]
    obtain ⟨gs, hgs⟩ := sheetsFoldM_isOk (primaryIdxOf (canonicalHeaders allHeaders))
      (secondaryIdxOf (canonicalHeaders allHeaders)) (canonicalHeaders allHeaders)
      sheetData [] halign
    rw [hgs]
    exact ⟨_, rfl⟩
  · intro sheetData allHeaders res hnone hok hne hcompat
    have hidx : primaryIdxOf (canonicalHeaders allHeaders) = [] := by
      rw [primaryIdxOf, hnone]
      rfl
    refine (grouping_single_group sheetData allHeaders res hok hne ?_).1
    intro r hr r' hr'
    rw [rowMatchesB, hidx]
    simpa [allPrimaryEqual] using hcompat r hr r' hr'

/-- C5 (witness): on headers with no primary field, the primary index list is
empty and the deduplication run completes normally. -/
theorem c5_witness :
    primaryIdxOf (canonicalHeaders ["Comment", "Genre"]) = [] ∧
    ∃ res, deduplicate_rows_with_soft_match
        [⟨["Comment", "Genre"], [["a", ""], ["", "y"]]⟩] ["Comment", "Genre"] =
      .ok res :=
  ⟨(c5_no_primary_no_raise.1 ["Comment", "Genre"] (by decide)).1,
    c5_no_primary_no_raise.2.1 [⟨["Comment", "Genre"], [["a", ""], ["", "y"]]⟩]
      ["Comment", "Genre"] (by decide)⟩

theorem get_shared_filled_fields_nil_left (d2 : List String) (idxs : List Nat) :
    get_shared_filled_fields [] d2 idxs = 0 := by
  have h : ∀ (l : List Nat) (c : Nat),
      l.foldl (fun count i =>
        if ([] : List String).getD i "" != "" && d2.getD i "" != "" then count + 1
        else count) c = c := by
    intro l
    induction l with
    | nil => intro c; rfl
    | cons i t ih => intro c; simp [List.getD, ih]
  exact h idxs 0

theorem get_shared_filled_fields_nil_right (d1 : List String) (idxs : List Nat) :
    get_shared_filled_fields d1 [] idxs = 0 := by
  have h : ∀ (l : List Nat) (c : Nat),
      l.foldl (fun count i =>
        if d1.getD i "" != "" && ([] : List String).getD i "" != "" then count + 1
        else count) c = c := by
    intro l
    induction l with
    | nil => intro c; rfl
    | cons i t ih => intro c; simp [List.getD, ih]
  exact h idxs 0

theorem softPairCond_shared_pos (pIdx sIdx : List Nat) (d1 d2 : List String)
    (h : softPairCond pIdx sIdx d1 d2 = true) :
    1 ≤ get_shared_filled_fields d1 d2 (pIdx ++ sIdx) := by
  simp only [softPairCond, Bool.and_eq_true, decide_eq_true_eq] at h
  rcases h with ⟨⟨_, hshared⟩, _⟩
  by_cases h3 : 3 ≤ pIdx.length <;> simp [h3] at hshared <;> omega

theorem softPairCond_in_range (pIdx sIdx : List Nat) (gs : List DedupGroup)
    (i j : Nat)
    (h : softPairCond pIdx sIdx (gs.getD i default).data (gs.getD j default).data = true) :
    i < gs.length ∧ j < gs.length := by
  constructor
  · by_contra hi
    have hlen : gs.length ≤ i := by omega
    rw [List.getD_eq_default _ _ hlen] at h
    have := softPairCond_shared_pos _ _ _ _ h
    rw [show (default : DedupGroup).data = [] from rfl,
      get_shared_filled_fields_nil_left] at this
    omega
  · by_contra hj
    have hlen : gs.length ≤ j := by omega
    rw [List.getD_eq_default _ _ hlen] at h
    have := softPairCond_shared_pos _ _ _ _ h
    rw [show (default : DedupGroup).data = [] from rfl,
      get_shared_filled_fields_nil_right] at this
    omega

theorem softenAt_getD_ne (gs : List DedupGroup) (n k : Nat) (h : k ≠ n) :
    (softenAt gs n).getD k default = gs.getD k default := by
  induction gs generalizing n k with
  | nil => simp [softenAt]
  | cons g t ih =>
    cases n with
    | zero =>
      cases k with
      | zero => omega
      | succ m => simp [softenAt]
    | succ n' =>
      cases k with
      | zero => simp [softenAt]
      | succ m => simpa [softenAt] using ih n' m (by omega)

theorem softenAt_getD_self (gs : List DedupGroup) (n : Nat) (h : n < gs.length) :
    (softenAt gs n).getD n default =
      (if (gs.getD n default).matchKind = "" then
        { gs.getD n default with matchKind := "soft" }
      else gs.getD n default) := by
  induction gs generalizing n with
  | nil => simp at h
  | cons g t ih =>
    cases n with
    | zero => simp [softenAt]
    | succ n' => simpa [softenAt] using ih n' (by simpa using h)

theorem softenAt_length (gs : List DedupGroup) (n : Nat) :
    (softenAt gs n).length = gs.length := by
  have := congrArg List.length (softenAt_map_dc gs n)
  simpa using this

theorem softenAt_getD_data (gs : List DedupGroup) (n k : Nat) :
    ((softenAt gs n).getD k default).data = (gs.getD k default).data := by
  by_cases h : k = n
  · subst h
    by_cases hk : k < gs.length
    · rw [softenAt_getD_self gs k hk]
      split <;> rfl
    · have h1 : gs.length ≤ k := by omega
      have h2 : (softenAt gs k).length ≤ k := by rw [softenAt_length]; omega
      rw [List.getD_eq_default _ _ h1, List.getD_eq_default _ _ h2]
  · rw [softenAt_getD_ne gs n k h]

theorem softenAt_kinds (gs : List DedupGroup) (n : Nat)
    (h : ∀ g ∈ gs, g.matchKind = "" ∨ g.matchKind = "soft") :
    ∀ g ∈ softenAt gs n, g.matchKind = "" ∨ g.matchKind = "soft" := by
  induction gs generalizing n with
  | nil => simp [softenAt]
  | cons g t ih =>
    cases n with
    | zero =>
      intro g' hg'
      rcases List.mem_cons.mp (by simpa [softenAt] using hg') with h1 | h1
      · by_cases hk : g.matchKind = ""
        · simp [hk] at h1
          simp [h1]
        · simp [hk] at h1
          exact h1 ▸ h g (List.mem_cons_self g t)
      · exact h g' (List.mem_cons_of_mem g h1)
    | succ n' =>
      intro g' hg'
      rcases List.mem_cons.mp (by simpa [softenAt] using hg') with h1 | h1
      · exact h1 ▸ h g (List.mem_cons_self g t)
      · exact ih n' (fun x hx => h x (List.mem_cons_of_mem g hx)) g' h1

theorem flagPair_kinds (pIdx sIdx : List Nat) (gs : List DedupGroup) (ij : Nat × Nat)
    (h : ∀ g ∈ gs, g.matchKind = "" ∨ g.matchKind = "soft") :
    ∀ g ∈ flagPair pIdx sIdx gs ij, g.matchKind = "" ∨ g.matchKind = "soft" := by
  unfold flagPair
  split
  · exact softenAt_kinds _ _ (softenAt_kinds _ _ h)
  · exact h

theorem flagPair_getD_data (pIdx sIdx : List Nat) (gs : List DedupGroup)
    (ij : Nat × Nat) (k : Nat) :
    ((flagPair pIdx sIdx gs ij).getD k default).data = (gs.getD k default).data := by
  unfold flagPair
  split
  · rw [softenAt_getD_data, softenAt_getD_data]
  · rfl

theorem getD_mem_of_lt (gs : List DedupGroup) (k : Nat) (h : k < gs.length) :
    gs.getD k default ∈ gs := by
  rw [List.getD_eq_getElem gs default h]
  exact List.getElem_mem h

theorem flagPair_soft_iff (pIdx sIdx : List Nat) (gs : List DedupGroup)
    (ij : Nat × Nat) (hne : ij.1 ≠ ij.2)
    (hkinds : ∀ g ∈ gs, g.matchKind = "" ∨ g.matchKind = "soft") (k : Nat) :
    ((flagPair pIdx sIdx gs ij).getD k default).matchKind = "soft" ↔
      ((gs.getD k default).matchKind = "soft" ∨
        (softPairCond pIdx sIdx (gs.getD ij.1 default).data
            (gs.getD ij.2 default).data = true ∧ (k = ij.1 ∨ k = ij.2))) := by
  by_cases hcond : softPairCond pIdx sIdx (gs.getD ij.1 default).data
      (gs.getD ij.2 default).data = true
  · obtain ⟨hi, hj⟩ := softPairCond_in_range pIdx sIdx gs ij.1 ij.2 hcond
    have hflag : flagPair pIdx sIdx gs ij = softenAt (softenAt gs ij.1) ij.2 := by
      unfold flagPair
      rw [if_pos hcond]
    rw [hflag]
    by_cases hk1 : k = ij.1
    · rw [hk1, softenAt_getD_ne _ _ _ (by omega), softenAt_getD_self gs ij.1 hi]
      have := hkinds (gs.getD ij.1 default) (getD_mem_of_lt gs ij.1 hi)
      constructor
      · intro _
        exact Or.inr ⟨hcond, Or.inl rfl⟩
      · intro _
        rcases this with h1 | h1
        · rw [if_pos h1]
        · rw [if_neg (by rw [h1]; simp)]
          exact h1
    · by_cases hk2 : k = ij.2
      · have hlen2 : ij.2 < (softenAt gs ij.1).length := by rw [softenAt_length]; omega
        rw [hk2, softenAt_getD_self _ _ hlen2, softenAt_getD_ne _ _ _ (fun h => hne h.symm)]
        have := hkinds (gs.getD ij.2 default) (getD_mem_of_lt gs ij.2 hj)
        constructor
        · intro _
          exact Or.inr ⟨hcond, Or.inr rfl⟩
        · intro _
          rcases this with h1 | h1
          · rw [if_pos h1]
          · rw [if_neg (by rw [h1]; simp)]
            exact h1
      · rw [softenAt_getD_ne _ _ _ hk2, softenAt_getD_ne _ _ _ hk1]
        constructor
        · intro h1
          exact Or.inl h1
        · intro h1
          rcases h1 with h1 | ⟨_, h1 | h1⟩
          · exact h1
          · exact absurd h1 hk1
          · exact absurd h1 hk2
  · have hflag : flagPair pIdx sIdx gs ij = gs := by
      unfold flagPair
      rw [if_neg hcond]
    rw [hflag]
    constructor
    · intro h1
      exact Or.inl h1
    · intro h1
      rcases h1 with h1 | ⟨h1, _⟩
      · exact h1
      · exact absurd h1 hcond

theorem flagFold_soft_iff (pIdx sIdx : List Nat) :
    ∀ (ps : List (Nat × Nat)), (∀ ij ∈ ps, ij.1 ≠ ij.2) →
    ∀ (gs : List DedupGroup), (∀ g ∈ gs, g.matchKind = "" ∨ g.matchKind = "soft") →
    ∀ k, (((ps.foldl (flagPair pIdx sIdx) gs).getD k default).matchKind = "soft" ↔
      ((gs.getD k default).matchKind = "soft" ∨
        ∃ ij ∈ ps, softPairCond pIdx sIdx (gs.getD ij.1 default).data
          (gs.getD ij.2 default).data = true ∧ (k = ij.1 ∨ k = ij.2))) := by
  intro ps
  induction ps with
  | nil =>
    intro _ gs _ k
    simp
  | cons ij0 t ih =>
    intro hne gs hkinds k
    rw [List.foldl_cons]
    rw [ih (fun x hx => hne x (List.mem_cons_of_mem ij0 hx))
      (flagPair pIdx sIdx gs ij0) (flagPair_kinds pIdx sIdx gs ij0 hkinds) k]
    simp only [flagPair_getD_data]
    rw [flagPair_soft_iff pIdx sIdx gs ij0 (hne ij0 (List.mem_cons_self ij0 t)) hkinds k]
    constructor
    · rintro ((h1 | ⟨h1, h2⟩) | ⟨ij, hij, h1, h2⟩)
      · exact Or.inl h1
      · exact Or.inr ⟨ij0, List.mem_cons_self ij0 t, h1, h2⟩
      · exact Or.inr ⟨ij, List.mem_cons_of_mem ij0 hij, h1, h2⟩
    · rintro (h1 | ⟨ij, hij, h1, h2⟩)
      · exact Or.inl (Or.inl h1)
      · rcases List.mem_cons.mp hij with h3 | h3
        · exact Or.inl (Or.inr ⟨h3 ▸ h1, h3 ▸ h2⟩)
        · exact Or.inr ⟨ij, h3, h1, h2⟩

theorem pairList_mem (n : Nat) (ij : Nat × Nat) :
    ij ∈ pairList n ↔ ij.1 < ij.2 ∧ ij.2 < n := by
  obtain ⟨i, j⟩ := ij
  simp only [pairList, List.mem_flatMap, List.mem_map, List.mem_filter, List.mem_range]
  constructor
  · rintro ⟨i', hi', j', ⟨⟨hj', hlt⟩, hpair⟩⟩
    cases hpair
    exact ⟨by simpa using hlt, hj'⟩
  · rintro ⟨hlt, hn⟩
    exact ⟨i, by omega, j, ⟨⟨hn, by simpa using hlt⟩, rfl⟩⟩

/-- C4: after the soft pass, a group's matchKind is `"soft"` exactly when
some unordered pair `(i, j)` with `i < j` containing it satisfies the flag
condition — score at least one half, shared filled count at least
`requiredShared` (2 when all three primary fields are present, else 1), and
every compared field empty on a side, similar to at least one half, or equal
after cleaning (first conjunct, with the flag condition spelled out in the
third conjunct); and a group already flagged Soft stays Soft through the
pass regardless of later comparisons (second conjunct). -/
theorem c4_soft_pass_characterization :
    (∀ (pIdx sIdx : List Nat) (gs : List DedupGroup),
      (∀ g ∈ gs, g.matchKind = "") →
      ∀ k, (((softPass pIdx sIdx gs).getD k default).matchKind = "soft" ↔
        ∃ i j, i < j ∧ j < gs.length ∧ (k = i ∨ k = j) ∧
          softPairCond pIdx sIdx (gs.getD i default).data
            (gs.getD j default).data = true)) ∧
    (∀ (pIdx sIdx : List Nat) (gs : List DedupGroup) (k : Nat),
      (∀ g ∈ gs, g.matchKind = "" ∨ g.matchKind = "soft") →
      (gs.getD k default).matchKind = "soft" →
      ((softPass pIdx sIdx gs).getD k default).matchKind = "soft") ∧
    (∀ (pIdx sIdx : List Nat) (d1 d2 : List String),
      softPairCond pIdx sIdx d1 d2 =
        (decide ((1 : ℚ) / 2 ≤ get_dedup_match_score d1 d2 (pIdx ++ sIdx)) &&
          decide ((if 3 ≤ pIdx.length then 2 else 1) ≤
            get_shared_filled_fields d1 d2 (pIdx ++ sIdx)) &&
          allSimilarFields d1 d2 (pIdx ++ sIdx))) := by
  refine ⟨?_, ?_, ?_⟩
  · intro pIdx sIdx gs h0 k
    have hkinds : ∀ g ∈ gs, g.matchKind = "" ∨ g.matchKind = "soft" :=
      fun g hg => Or.inl (h0 g hg)
    have hne : ∀ ij ∈ pairList gs.length, ij.1 ≠ ij.2 := by
      intro ij hij
      have := (pairList_mem gs.length ij).mp hij
      omega
    rw [softPass, flagFold_soft_iff pIdx sIdx (pairList gs.length) hne gs hkinds k]
    have hnotsoft : ¬(gs.getD k default).matchKind = "soft" := by
      by_cases hk : k < gs.length
      · rw [h0 (gs.getD k default) (getD_mem_of_lt gs k hk)]
        simp
      · rw [List.getD_eq_default _ _ (by omega)]
        decide
    simp only [hnotsoft, false_or]
    constructor
    · rintro ⟨ij, hij, h1, h2⟩
      have hb := (pairList_mem gs.length ij).mp hij
      exact ⟨ij.1, ij.2, hb.1, hb.2, h2, h1⟩
    · rintro ⟨i, j, h1, h2, h3, h4⟩
      exact ⟨(i, j), (pairList_mem gs.length (i, j)).mpr ⟨h1, h2⟩, h4, h3⟩
  · intro pIdx sIdx gs k hkinds hsoft
    have hne : ∀ ij ∈ pairList gs.length, ij.1 ≠ ij.2 := by
      intro ij hij
      have := (pairList_mem gs.length ij).mp hij
      omega
    rw [softPass, flagFold_soft_iff pIdx sIdx (pairList gs.length) hne gs hkinds k]
    exact Or.inl hsoft
  · intro pIdx sIdx d1 d2
    rfl

theorem sim_blue : string_similarity "Blue Monday" "Blue Monday (Radio Edit)" = 22 / 35 := by
  rw [string_similarity_eval _ _ 11 35 (by decide) (by decide) (by norm_num)]
  norm_num

theorem sim_new_order : string_similarity "New Order" "New Order" = 1 := by
  rw [string_similarity_eval _ _ 9 18 (by decide) (by decide) (by norm_num)]
  norm_num

theorem c4_cond_concrete :
    softPairCond [0, 1] [] ["Blue Monday", "New Order"]
      ["Blue Monday (Radio Edit)", "New Order"] = true := by
  have hscore : get_dedup_match_score ["Blue Monday", "New Order"]
      ["Blue Monday (Radio Edit)", "New Order"] [0, 1] = 57 / 70 := by
    simp only [get_dedup_match_score, List.foldl_cons, List.foldl_nil, scoreStep,
      List.getD_cons_zero, List.getD_cons_succ, sim_blue, sim_new_order]
    simp
    norm_num
  have hshared : get_shared_filled_fields ["Blue Monday", "New Order"]
      ["Blue Monday (Radio Edit)", "New Order"] [0, 1] = 2 := by decide
  have hsim : allSimilarFields ["Blue Monday", "New Order"]
      ["Blue Monday (Radio Edit)", "New Order"] [0, 1] = true := by
    simp only [allSimilarFields, List.all_cons, List.all_nil,
      List.getD_cons_zero, List.getD_cons_succ, sim_blue, sim_new_order]
    simp only [Bool.or_eq_true, Bool.and_eq_true, decide_eq_true_eq]
    norm_num
  simp only [softPairCond, List.append_nil, hscore, hshared, hsim]
  simp only [Bool.and_eq_true, decide_eq_true_eq]
  norm_num

/-- C4 (witness): two groups titled `"Blue Monday"` and
`"Blue Monday (Radio Edit)"` by the same artist, both initially unmarked,
satisfy the flag condition, and the soft pass marks the first one Soft. -/
theorem c4_witness :
    (∀ g ∈ ([⟨["Blue Monday", "New Order"], 1, ""⟩,
        ⟨["Blue Monday (Radio Edit)", "New Order"], 1, ""⟩] : List DedupGroup),
      g.matchKind = "") ∧
    ((softPass [0, 1] [] [⟨["Blue Monday", "New Order"], 1, ""⟩,
        ⟨["Blue Monday (Radio Edit)", "New Order"], 1, ""⟩]).getD 0
      default).matchKind = "soft" := by
  refine ⟨by decide, ?_⟩
  exact (c4_soft_pass_characterization.1 [0, 1] []
      [⟨["Blue Monday", "New Order"], 1, ""⟩,
        ⟨["Blue Monday (Radio Edit)", "New Order"], 1, ""⟩] (by decide) 0).mpr
    ⟨0, 1, by omega, by decide, Or.inl rfl, c4_cond_concrete⟩

theorem mergeYearCells_getD (headers : List String) :
    ∀ (aligned other : List String) (i : Nat),
      i < headers.length → i < aligned.length → i < other.length →
      (mergeYearCells headers aligned other).getD i "" =
        (if isYear4 (headers.getD i "") then
          toString (cellInt (aligned.getD i "") + cellInt (other.getD i ""))
        else other.getD i "") := by
  induction headers with
  | nil =>
    intro aligned other i hh _ _
    simp at hh
  | cons h hs ih =>
    intro aligned other i hh ha ho
    cases aligned with
    | nil => simp at ha
    | cons a as =>
      cases other with
      | nil => simp at ho
      | cons o os =>
        cases i with
        | zero => simp [mergeYearCells]
        | succ n =>
          simpa [mergeYearCells] using
            ih as os n (by simpa using hh) (by simpa using ha) (by simpa using ho)

theorem setCell_length (r : List String) (i : Nat) (v : String) :
    (setCell r i v).length = r.length := by
  induction r generalizing i with
  | nil => simp [setCell]
  | cons c t ih =>
    cases i with
    | zero => simp [setCell]
    | succ n => simp [setCell, ih]

theorem setCell_getD_ne (r : List String) (i k : Nat) (v d : String) (h : k ≠ i) :
    (setCell r i v).getD k d = r.getD k d := by
  induction r generalizing i k with
  | nil => simp [setCell]
  | cons c t ih =>
    cases i with
    | zero =>
      cases k with
      | zero => omega
      | succ m => simp [setCell]
    | succ n =>
      cases k with
      | zero => simp [setCell]
      | succ m => simpa [setCell] using ih n m (by omega)

theorem setCell_getD_self (r : List String) (i : Nat) (v d : String)
    (h : i < r.length) : (setCell r i v).getD i d = v := by
  induction r generalizing i with
  | nil => simp at h
  | cons c t ih =>
    cases i with
    | zero => simp [setCell]
    | succ n => simpa [setCell] using ih n (by simpa using h)

theorem zeroClean_fold (headers : List String) (hnd : headers.Nodup) :
    ∀ (ys : List String), ys.Nodup → (∀ y ∈ ys, y ∈ headers) →
    ∀ (r : List String) (p : Nat), p < headers.length → p < r.length →
      (ys.foldl (zcStep headers) r).getD p "" =
        if headers.getD p "" ∈ ys ∧ r.getD p "" = "0" then "" else r.getD p "" := by
  intro ys
  induction ys with
  | nil =>
    intro _ _ r p hp hr
    simp
  | cons y t ih =>
    intro hndy hmem r p hp hr
    have hy : y ∈ headers := hmem y (List.mem_cons_self y t)
    have hq : headers.indexOf y < headers.length := List.indexOf_lt_length.mpr hy
    have hqy : headers[headers.indexOf y] = y := List.getElem_indexOf hq
    have hstep : ∀ r : List String,
        zcStep headers r y =
          (if headers.indexOf y < r.length ∧ r.getD (headers.indexOf y) "" = "0" then
            setCell r (headers.indexOf y) "" else r) := by
      intro r
      simp [zcStep]
    rw [List.foldl_cons, hstep r]
    by_cases hpy : headers.getD p "" = y
    · have hpq : p = headers.indexOf y := by
        have h1 : headers[p] = y := by
          rw [← List.getD_eq_getElem headers "" hp]
          exact hpy
        have := List.indexOf_getElem hnd p hp
        rw [h1] at this
        omega
      by_cases h0 : r.getD p "" = "0"
      · rw [if_pos (by rw [← hpq]; exact ⟨hr, h0⟩)]
        rw [ih (List.Nodup.of_cons hndy) (fun x hx => hmem x (List.mem_cons_of_mem y hx))
          (setCell r (headers.indexOf y) "") p hp (by rw [setCell_length]; omega)]
        have hset : (setCell r (headers.indexOf y) "").getD p "" = "" := by
          rw [hpq]
          exact setCell_getD_self r (headers.indexOf y) "" "" (by omega)
        rw [hset]
        rw [if_neg (by simp),
          if_pos ⟨by rw [hpy]; exact List.mem_cons_self y t, h0⟩]
      · have hcond : ¬(headers.indexOf y < r.length ∧ r.getD (headers.indexOf y) "" = "0") := by
          rw [← hpq]
          intro hcc
          exact h0 hcc.2
        rw [if_neg hcond]
        rw [ih (List.Nodup.of_cons hndy) (fun x hx => hmem x (List.mem_cons_of_mem y hx))
          r p hp hr]
        have hnot : ¬(headers.getD p "" ∈ t ∧ r.getD p "" = "0") := fun hcc => h0 hcc.2
        rw [if_neg hnot, if_neg (fun hcc => h0 hcc.2)]
    · have hpq : p ≠ headers.indexOf y := by
        intro hcc
        apply hpy
        rw [hcc, List.getD_eq_getElem headers "" (hcc ▸ hp)]
        exact hqy
      have hpres : ∀ v, (if headers.indexOf y < r.length ∧
          r.getD (headers.indexOf y) "" = "0" then
            setCell r (headers.indexOf y) "" else r).getD p v = r.getD p v := by
        intro v
        split
        · exact setCell_getD_ne r (headers.indexOf y) p "" v hpq
        · rfl
      have hlen : (if headers.indexOf y < r.length ∧
          r.getD (headers.indexOf y) "" = "0" then
            setCell r (headers.indexOf y) "" else r).length = r.length := by
        split
        · exact setCell_length r (headers.indexOf y) ""
        · rfl
      rw [ih (List.Nodup.of_cons hndy) (fun x hx => hmem x (List.mem_cons_of_mem y hx))
        _ p hp (by omega), hpres]
      have hmemiff : headers.getD p "" ∈ y :: t ↔ headers.getD p "" ∈ t := by
        constructor
        · intro h
          rcases List.mem_cons.mp h with h1 | h1
          · exact absurd h1 hpy
          · exact h1
        · exact fun h => List.mem_cons_of_mem y h
      by_cases hin : headers.getD p "" ∈ t ∧ r.getD p "" = "0"
      · rw [if_pos hin, if_pos ⟨hmemiff.mpr hin.1, hin.2⟩]
      · rw [if_neg hin, if_neg (fun hcc => hin ⟨hmemiff.mp hcc.1, hcc.2⟩)]

/-- C8: in the consolidation variant, when an incoming row merges into a
group, every cell under a 4-digit year header becomes the decimal string of
the integer sum of both sides' cells, with empty or non-numeric cells parsed
as `0`, while other cells keep the group's value (first conjunct); at
emission every year-bucket cell whose value is the literal `"0"` is
rewritten to the empty string, other cells being kept (second conjunct,
for duplicate-free headers); concretely, merging `"3"` and `"4"` under year
`"2020"` yields `"7"`, and a final `"0"` serializes as `""` (third
conjunct). -/
theorem c8_year_bucket_merge :
    (∀ (headers aligned other : List String) (i : Nat),
      i < headers.length → i < aligned.length → i < other.length →
      (mergeYearCells headers aligned other).getD i "" =
        (if isYear4 (headers.getD i "") then
          toString (cellInt (aligned.getD i "") + cellInt (other.getD i ""))
        else other.getD i "")) ∧
    (∀ (headers row : List String) (i : Nat), headers.Nodup →
      i < headers.length → i < row.length →
      (zeroCleanRow headers row).getD i "" =
        (if isYear4 (headers.getD i "") ∧ row.getD i "" = "0" then ""
        else row.getD i "")) ∧
    (insertRowCS [] [] ["2020"] ["3"] [⟨["4"], 1, ""⟩] = [⟨["7"], 2, ""⟩] ∧
      zeroCleanRow ["2020"] ["0"] = [""]) := by
  refine ⟨?_, ?_, by decide, by decide⟩
  · intro headers aligned other i hh ha ho
    exact mergeYearCells_getD headers aligned other i hh ha ho
  · intro headers row i hnd hh hr
    rw [zeroCleanRow, zeroClean_fold headers hnd (headers.filter fun h => isYear4 h)
      (List.Nodup.filter _ hnd) (fun y hy => (List.mem_filter.mp hy).1) row i hh hr]
    have hmem : headers.getD i "" ∈ headers.filter (fun h => isYear4 h) ↔
        isYear4 (headers.getD i "") = true := by
      constructor
      · intro h
        exact (List.mem_filter.mp h).2
      · intro h
        refine List.mem_filter.mpr ⟨?_, h⟩
        rw [List.getD_eq_getElem headers "" hh]
        exact List.getElem_mem hh
    by_cases hcase : isYear4 (headers.getD i "") ∧ row.getD i "" = "0"
    · rw [if_pos ⟨hmem.mpr hcase.1, hcase.2⟩, if_pos hcase]
    · rw [if_neg (fun hcc => hcase ⟨hmem.mp hcc.1, hcc.2⟩), if_neg hcase]

/-- C8 (witness): on headers `["Title", "2020"]` with a merged row the year
cell becomes `"7"` while the Title cell keeps the group's value; a `"0"`
year cell empties at emission while the Title cell survives. -/
theorem c8_witness :
    (mergeYearCells ["Title", "2020"] ["x", "3"] ["y", "4"]).getD 1 "" =
      (if isYear4 (["Title", "2020"].getD 1 "") then
        toString (cellInt (["x", "3"].getD 1 "") + cellInt (["y", "4"].getD 1 ""))
      else (["y", "4"].getD 1 "")) ∧
    (zeroCleanRow ["Title", "2020"] ["t", "0"]).getD 1 "" =
      (if isYear4 (["Title", "2020"].getD 1 "") ∧ ["t", "0"].getD 1 "" = "0" then ""
      else ["t", "0"].getD 1 "") :=
  ⟨c8_year_bucket_merge.1 ["Title", "2020"] ["x", "3"] ["y", "4"] 1
      (by decide) (by decide) (by decide),
    c8_year_bucket_merge.2.1 ["Title", "2020"] ["t", "0"] 1
      (by decide) (by decide) (by decide)⟩

theorem charListLt_iff_lt (a : List Char) :
    ∀ b : List Char, charListLt a b = true ↔ a < b := by
  induction a with
  | nil =>
    intro b
    cases b with
    | nil =>
      simp only [charListLt]
      constructor
      · intro h
        cases h
      · intro h
        cases h
    | cons y ys =>
      simp only [charListLt, true_iff]
      exact List.Lex.nil
  | cons x xs ih =>
    intro b
    cases b with
    | nil =>
      simp only [charListLt]
      constructor
      · intro h
        cases h
      · intro h
        cases h
    | cons y ys =>
      simp only [charListLt, Bool.or_eq_true, Bool.and_eq_true, decide_eq_true_eq]
      constructor
      · rintro (h | ⟨heq, hrec⟩)
        · exact List.Lex.rel h
        · subst heq
          exact List.Lex.cons ((ih ys).mp hrec)
      · intro h
        cases h with
        | rel hxy => exact Or.inl hxy
        | cons h3 => exact Or.inr ⟨rfl, (ih ys).mpr h3⟩

theorem strLeB_iff_le (x y : String) : strLeB x y = true ↔ x ≤ y := by
  rw [strLeB, Bool.not_eq_true']
  constructor
  · intro h
    by_contra hle
    have hlt : y < x := not_le.mp hle
    have : y.data < x.data := String.lt_iff_toList_lt.mp hlt
    rw [← (charListLt_iff_lt y.data x.data)] at this
    rw [this] at h
    cases h
  · intro h
    by_contra hne
    have : charListLt y.data x.data = true := by
      cases hb : charListLt y.data x.data
      · exact absurd hb hne
      · rfl
    have hlt : y < x := String.lt_iff_toList_lt.mpr ((charListLt_iff_lt y.data x.data).mp this)
    exact absurd h (not_le.mpr hlt)

theorem pyInsert_perm (key : DedupGroup → String) (x : DedupGroup) :
    ∀ l : List DedupGroup, (pyInsert key x l).Perm (x :: l) := by
  intro l
  induction l with
  | nil => exact List.Perm.refl _
  | cons y t ih =>
    rw [pyInsert]
    split
    · exact List.Perm.refl _
    · exact (ih.cons y).trans (List.Perm.swap x y t)

theorem pySort_perm (key : DedupGroup → String) :
    ∀ l : List DedupGroup, (pySort key l).Perm l := by
  intro l
  induction l with
  | nil => exact List.Perm.refl _
  | cons x t ih =>
    rw [pySort]
    exact (pyInsert_perm key x (pySort key t)).trans (ih.cons x)

theorem strLeB_false_le (x y : String) (h : ¬strLeB x y = true) : y ≤ x := by
  have hb : charListLt y.data x.data = true := by
    cases hc : charListLt y.data x.data
    · exact absurd (by rw [strLeB, hc]; rfl) h
    · rfl
  exact le_of_lt (String.lt_iff_toList_lt.mpr ((charListLt_iff_lt y.data x.data).mp hb))

theorem strLeB_false_lt (x y : String) (h : ¬strLeB x y = true) : y < x := by
  have hb : charListLt y.data x.data = true := by
    cases hc : charListLt y.data x.data
    · exact absurd (by rw [strLeB, hc]; rfl) h
    · rfl
  exact String.lt_iff_toList_lt.mpr ((charListLt_iff_lt y.data x.data).mp hb)

theorem pyInsert_sorted (key : DedupGroup → String) (x : DedupGroup)
    (l : List DedupGroup) (h : l.Pairwise fun a b => key a ≤ key b) :
    (pyInsert key x l).Pairwise fun a b => key a ≤ key b := by
  induction l with
  | nil =>
    simp [pyInsert]
  | cons y t ih =>
    rw [pyInsert]
    split
    · rename_i hxy
      have hxy' := (strLeB_iff_le (key x) (key y)).mp hxy
      refine List.Pairwise.cons ?_ h
      intro b hb
      rcases List.mem_cons.mp hb with h1 | h1
      · exact h1 ▸ hxy'
      · exact le_trans hxy' ((List.pairwise_cons.mp h).1 b h1)
    · rename_i hxy
      have hyx : key y ≤ key x := strLeB_false_le (key x) (key y) hxy
      have htail := ih (List.pairwise_cons.mp h).2
      refine List.Pairwise.cons ?_ htail
      intro b hb
      have hb' : b ∈ x :: t := (pyInsert_perm key x t).mem_iff.mp hb
      rcases List.mem_cons.mp hb' with h1 | h1
      · exact h1 ▸ hyx
      · exact (List.pairwise_cons.mp h).1 b h1

theorem pySort_sorted (key : DedupGroup → String) :
    ∀ l : List DedupGroup, (pySort key l).Pairwise fun a b => key a ≤ key b := by
  intro l
  induction l with
  | nil => exact List.Pairwise.nil
  | cons x t ih =>
    rw [pySort]
    exact pyInsert_sorted key x (pySort key t) ih

theorem pyInsert_filter_key (key : DedupGroup → String) (t : String)
    (x : DedupGroup) :
    ∀ l : List DedupGroup,
      (pyInsert key x l).filter (fun g => key g == t) =
        (if key x == t then x :: l.filter (fun g => key g == t)
        else l.filter (fun g => key g == t)) := by
  intro l
  induction l with
  | nil =>
    rw [pyInsert]
    by_cases hx : (key x == t) = true <;> simp [List.filter, hx]
  | cons y l ih =>
    rw [pyInsert]
    split
    · rename_i hxy
      rw [List.filter_cons]
    · rename_i hxy
      have hlty : key y < key x := strLeB_false_lt (key x) (key y) hxy
      rw [List.filter_cons, ih, List.filter_cons]
      by_cases hx : (key x == t) = true
      · have hyt : (key y == t) = false := by
          have hxt : key x = t := by simpa using hx
          have : key y ≠ t := fun hcc => absurd (hcc.trans hxt.symm) (ne_of_lt hlty)
          simpa using this
        simp [hx, hyt]
      · simp [hx]

theorem pySort_filter_key (key : DedupGroup → String) (t : String) :
    ∀ l : List DedupGroup,
      (pySort key l).filter (fun g => key g == t) =
        l.filter (fun g => key g == t) := by
  intro l
  induction l with
  | nil => rfl
  | cons x l ih =>
    rw [pySort, pyInsert_filter_key, ih, List.filter_cons]

/-- C9 (amended): `deduplicate_summaries` looks the `Title` and `Comment`
columns up case-sensitively (`headers.index`); provided the canonical
headers contain those exact names, the emitted rows are the surviving Soft
groups followed by the surviving other groups, no emitted row's Comment
cell case-insensitively contains an exclusion phrase, each partition is
sorted ascending by the Title cell, and within equal Title keys the
surviving groups keep their original encounter order (last conjunct:
filtering an emitted partition to one Title key returns exactly the
survivors of that key in input order). -/
theorem c9_emit_filter_sort (headers : List String) (gs : List DedupGroup)
    (ti ci : Nat) (hT : idxOf? headers "Title" = some ti)
    (hC : idxOf? headers "Comment" = some ci) :
    (summaryEmit headers gs =
      emitPartition (some ti) (some ci)
        ((gs.filter fun g => 0 < g.count).filter fun g => g.matchKind == "soft") ++
      emitPartition (some ti) (some ci)
        ((gs.filter fun g => 0 < g.count).filter fun g => g.matchKind != "soft")) ∧
    (∀ g ∈ summaryEmit headers gs,
      pyContains (pyLower (g.data.getD ci "")) "routine |" = false ∧
      pyContains (pyLower (g.data.getD ci "")) "the open 2024" = false ∧
      pyContains (pyLower (g.data.getD ci "")) "fx |" = false) ∧
    (∀ g ∈ emitPartition (some ti) (some ci)
        ((gs.filter fun g => 0 < g.count).filter fun g => g.matchKind == "soft"),
      g.matchKind = "soft") ∧
    (∀ g ∈ emitPartition (some ti) (some ci)
        ((gs.filter fun g => 0 < g.count).filter fun g => g.matchKind != "soft"),
      g.matchKind ≠ "soft") ∧
    List.Pairwise (fun a b => a.data.getD ti "" ≤ b.data.getD ti "")
      (emitPartition (some ti) (some ci)
        ((gs.filter fun g => 0 < g.count).filter fun g => g.matchKind == "soft")) ∧
    List.Pairwise (fun a b => a.data.getD ti "" ≤ b.data.getD ti "")
      (emitPartition (some ti) (some ci)
        ((gs.filter fun g => 0 < g.count).filter fun g => g.matchKind != "soft")) ∧
    (∀ (part : List DedupGroup) (t : String),
      (emitPartition (some ti) (some ci) part).filter
          (fun g => g.data.getD ti "" == t) =
        (part.filter fun g => !should_exclude (g.data.getD ci "")).filter
          (fun g => g.data.getD ti "" == t)) := by
  have hsplit : summaryEmit headers gs =
      emitPartition (some ti) (some ci)
        ((gs.filter fun g => 0 < g.count).filter fun g => g.matchKind == "soft") ++
      emitPartition (some ti) (some ci)
        ((gs.filter fun g => 0 < g.count).filter fun g => g.matchKind != "soft") := by
    simp only [summaryEmit, hT, hC]
  have hexcl : ∀ (part : List DedupGroup) (g : DedupGroup),
      g ∈ emitPartition (some ti) (some ci) part →
      pyContains (pyLower (g.data.getD ci "")) "routine |" = false ∧
      pyContains (pyLower (g.data.getD ci "")) "the open 2024" = false ∧
      pyContains (pyLower (g.data.getD ci "")) "fx |" = false := by
    intro part g hg
    have h2 := (List.mem_filter.mp hg).2
    have hse : should_exclude (commentCellOf (some ci) g) = false := by
      simpa using h2
    have h3 : should_exclude (g.data.getD ci "") = false := hse
    simp only [should_exclude] at h3
    simp only [Bool.or_eq_false_iff] at h3
    exact ⟨h3.1.1, h3.1.2, h3.2⟩
  have hmemkind : ∀ (p : DedupGroup → Bool) (g : DedupGroup),
      g ∈ emitPartition (some ti) (some ci)
        ((gs.filter fun g => 0 < g.count).filter p) → p g = true := by
    intro p g hg
    have h1 : g ∈ pySort (titleKeyOf (some ti))
        ((gs.filter fun g => 0 < g.count).filter p) := (List.mem_filter.mp hg).1
    have h2 : g ∈ (gs.filter fun g => 0 < g.count).filter p :=
      (pySort_perm (titleKeyOf (some ti)) _).mem_iff.mp h1
    exact (List.mem_filter.mp h2).2
  refine ⟨hsplit, ?_, ?_, ?_, ?_, ?_, ?_⟩
  · intro g hg
    rw [hsplit] at hg
    rcases List.mem_append.mp hg with h1 | h1
    · exact hexcl _ g h1
    · exact hexcl _ g h1
  · intro g hg
    simpa using hmemkind (fun g => g.matchKind == "soft") g hg
  · intro g hg
    simpa using hmemkind (fun g => g.matchKind != "soft") g hg
  · exact List.Pairwise.filter _ (pySort_sorted (titleKeyOf (some ti)) _)
  · exact List.Pairwise.filter _ (pySort_sorted (titleKeyOf (some ti)) _)
  · intro part t
    have hkey : (fun g : DedupGroup => g.data.getD ti "" == t) =
        (fun g => titleKeyOf (some ti) g == t) := rfl
    rw [emitPartition, List.filter_comm, hkey,
      pySort_filter_key (titleKeyOf (some ti)) t part, List.filter_comm, ← hkey]
    rfl

/-- C9 (counterexample): with the Comment column cased `"COMMENT"`, the
exact-case `headers.index("Comment")` lookup fails, no exclusion is applied,
and the final output emits a data row whose Comment cell case-insensitively
contains the exclusion phrase `"routine |"`. -/
theorem c9_counterexample :
    (deduplicate_rows_with_soft_match
        [⟨["Title", "COMMENT"], [["x", "routine | y"]]⟩] ["Title", "COMMENT"]).map
      (fun r => summaryEmit r.headers r.rowsWithMeta) =
      .ok [⟨["x", "routine | y"], 1, ""⟩] ∧
    pyContains (pyLower "routine | y") "routine |" = true := by
  refine ⟨by decide, by decide⟩

/-- C9 (witness): with exact-cased headers `["Title", "Comment"]`, the Soft
group `"a"` is emitted and, by the amended theorem, its Comment cell
contains no exclusion phrase. -/
theorem c9_witness :
    (⟨["a", "x"], 2, "soft"⟩ : DedupGroup) ∈ summaryEmit ["Title", "Comment"]
        [⟨["b", ""], 1, ""⟩, ⟨["a", "x"], 2, "soft"⟩, ⟨["c", "fx | z"], 1, ""⟩] ∧
    (pyContains (pyLower ((⟨["a", "x"], 2, "soft"⟩ : DedupGroup).data.getD 1 ""))
        "routine |" = false ∧
      pyContains (pyLower ((⟨["a", "x"], 2, "soft"⟩ : DedupGroup).data.getD 1 ""))
        "the open 2024" = false ∧
      pyContains (pyLower ((⟨["a", "x"], 2, "soft"⟩ : DedupGroup).data.getD 1 ""))
        "fx |" = false) :=
  ⟨by decide,
    (c9_emit_filter_sort ["Title", "Comment"]
      [⟨["b", ""], 1, ""⟩, ⟨["a", "x"], 2, "soft"⟩, ⟨["c", "fx | z"], 1, ""⟩]
      0 1 (by decide) (by decide)).2.1 ⟨["a", "x"], 2, "soft"⟩ (by decide)⟩
